import Mathlib

/-!
Verification development for the LaborWatch feed-curation pipeline
(`laborwatch.py` + `feeds_config.py`).

The pipeline is shallowly embedded: Python strings are Lean `String`s
(matching is done on their character lists), timezone-aware `datetime`
values are modelled as absolute instants in microseconds (`Int`, measured
from the Unix epoch), the SQLite `seen` table is a list of rows, and the
external collaborators (HTTP fetching, Telegram sending, the wall clock)
are parameters of the embedded functions.
-/

namespace LaborWatch

/-! ## Character and string helpers -/

/-- ASCII lower-casing of a single character, as Python `str.lower` acts on
the ASCII range (the Korean text used by the program is unaffected). -/
def asciiLower (c : Char) : Char :=
  if 65 ≤ c.toNat ∧ c.toNat ≤ 90 then Char.ofNat (c.toNat + 32) else c

/-- ASCII whitespace, the characters Python's `str.strip` and `\s` treat as
space in the ASCII range (the feeds only contain these). -/
def isSpaceCh (c : Char) : Bool :=
  c = ' ' || c = '\t' || c = '\n' || c = '\r' || c.toNat = 11 || c.toNat = 12

def isDigitCh (c : Char) : Bool :=
  48 ≤ c.toNat && c.toNat ≤ 57

def digitVal (c : Char) : Nat := c.toNat - 48

/-- The character for a single decimal digit. -/
def digitChar (n : Nat) : Char := Char.ofNat (48 + n)

/-- Python `str.strip()` on a character list. -/
def pyStripL (l : List Char) : List Char :=
  ((l.dropWhile isSpaceCh).reverse.dropWhile isSpaceCh).reverse

/-- Python `str.strip()`. -/
def pyStrip (s : String) : String := String.mk (pyStripL s.toList)

/-- Whether `needle` starts `hay`. -/
def isPrefList : List Char → List Char → Bool
  | [], _ => true
  | _ :: _, [] => false
  | n :: ns, h :: hs => n == h && isPrefList ns hs

/-- Whether `needle` occurs inside `hay` (Python `needle in hay`). -/
def isSubList (needle hay : List Char) : Bool :=
  isPrefList needle hay ||
    match hay with
    | [] => false
    | _ :: hs => isSubList needle hs

/-- Python `sub in s` on strings (case-sensitive). -/
def containsStr (hay sub : String) : Bool :=
  isSubList sub.toList hay.toList

def lowerL (l : List Char) : List Char := l.map asciiLower

/-- Case-insensitive substring search, modelling `re.search` of a literal
pattern compiled with `re.I`. -/
def searchCI (pat : String) (text : String) : Bool :=
  isSubList (lowerL pat.toList) (lowerL text.toList)

/-- Case-insensitive search for any one of a list of literal alternatives,
modelling `re.search` of a `re.I` pattern `alt1|alt2|...` whose alternatives
are all literal. -/
def searchAnyCI (pats : List String) (text : String) : Bool :=
  pats.any (fun p => searchCI p text)

/-! ## Calendar arithmetic

`datetime` values are modelled as absolute instants: microseconds from the
Unix epoch.  `daysFromCivil` is the standard proleptic-Gregorian day count
(Howard Hinnant's `days_from_civil`), which agrees with Python's
`datetime`/`toordinal` arithmetic for the representable years 1..9999. -/

def isLeapYear (y : Nat) : Bool :=
  (y % 4 == 0 && y % 100 != 0) || y % 400 == 0

def daysInMonth (y m : Nat) : Nat :=
  if m = 2 then (if isLeapYear y then 29 else 28)
  else if m = 4 ∨ m = 6 ∨ m = 9 ∨ m = 11 then 30
  else 31

/-- Days from 1970-01-01 to year `y`, month `m`, day `d` (valid civil dates,
year ≥ 1). -/
def daysFromCivil (y m d : Nat) : Int :=
  let y' : Nat := if m ≤ 2 then y - 1 else y
  let era : Nat := y' / 400
  let yoe : Nat := y' % 400
  let mp : Nat := (m + 9) % 12
  let doy : Nat := (153 * mp + 2) / 5 + d - 1
  let doe : Nat := yoe * 365 + yoe / 4 - yoe / 100 + doy
  (era * 146097 + doe : Nat) - (719468 : Int)

/-- Microseconds per day. -/
def usecPerDay : Int := 86400000000

/-- The absolute instant (microseconds from the Unix epoch) of the civil
wall-clock time `y-m-d hh:mi:ss.usec` at UTC offset `offSec` seconds. -/
def civilInstant (y m d hh mi ss : Nat) (offSec : Int) (usec : Nat) : Int :=
  daysFromCivil y m d * usecPerDay
    + ((hh * 3600 + mi * 60 + ss : Nat) : Int) * 1000000
    + (usec : Int) - offSec * 1000000

/-- KST = `timezone(timedelta(hours=9))`, as an offset in seconds. -/
def kstSec : Int := 32400

/-- `datetime.min.replace(tzinfo=KST)`, the sentinel the ranker substitutes
for a missing `_dt`: year 1, Jan 1, 00:00 at KST, as an absolute instant. -/
def dtMinKst : Int := civilInstant 1 1 1 0 0 0 kstSec 0

/-- The range checks `datetime.__init__` performs (`strptime` attempts that
parse out-of-range fields raise and fall through to the next pattern). -/
def validYMD (y m d : Nat) : Bool :=
  decide (1 ≤ y) && decide (y ≤ 9999) && decide (1 ≤ m) && decide (m ≤ 12)
    && decide (1 ≤ d) && decide (d ≤ daysInMonth y m)

def validHMS (hh mi ss : Nat) : Bool :=
  decide (hh ≤ 23) && decide (mi ≤ 59) && decide (ss ≤ 59)

/-! ## The date parser (`parse_dt`)

Each `strptime` pattern of `DATE_PATTERNS` is embedded as a parser over the
character list, following CPython's `_strptime` field regexes: `%Y` is
exactly four digits, `%m`/`%d`/`%H`/`%M`/`%S` accept one or two digits with
the documented range alternations, `%z` accepts `Z` or `±HH[:]MM[[:]SS]`,
a literal space matches one or more whitespace characters, and the whole
string must be consumed.  `%Z` is modelled by the locale-independent names
`UTC`/`GMT` (it yields a naive result, which the code then localizes to
KST).  A parsed result is an optional explicit offset plus civil fields. -/

structure PDT where
  y : Nat
  m : Nat
  d : Nat
  hh : Nat
  mi : Nat
  ss : Nat
  usec : Nat
  zone : Option Int
deriving Repr, DecidableEq

/-- Exactly `n` decimal digits, most significant first. -/
def takeDigits : Nat → List Char → Option (Nat × List Char)
  | 0, l => some (0, l)
  | _ + 1, [] => none
  | n + 1, c :: l =>
    if isDigitCh c then
      (takeDigits n l).map (fun p => (digitVal c * 10 ^ n + p.1, p.2))
    else none

/-- One-digit numeric field with range `[lo1, hi1]` (the single-digit
alternative of a `_strptime` field regex). -/
def take1 (lo1 hi1 : Nat) (c1 : Char) (rest : List Char) : Option (Nat × List Char) :=
  if isDigitCh c1 ∧ lo1 ≤ digitVal c1 ∧ digitVal c1 ≤ hi1 then
    some (digitVal c1, rest)
  else none

/-- Two-or-one digit numeric field: the two-digit alternatives cover the
range `[lo2, hi2]`, the one-digit alternative `[lo1, hi1]`; two digits are
preferred, as in the regex alternations `_strptime` generates. -/
def take2or1 (lo2 hi2 lo1 hi1 : Nat) : List Char → Option (Nat × List Char)
  | [] => none
  | c1 :: rest =>
    match rest with
    | c2 :: r2 =>
      if isDigitCh c1 ∧ isDigitCh c2 ∧ lo2 ≤ 10 * digitVal c1 + digitVal c2
          ∧ 10 * digitVal c1 + digitVal c2 ≤ hi2 then
        some (10 * digitVal c1 + digitVal c2, r2)
      else take1 lo1 hi1 c1 rest
    | [] => take1 lo1 hi1 c1 rest

def takeMonth : List Char → Option (Nat × List Char) := take2or1 1 12 1 9
def takeDay : List Char → Option (Nat × List Char) := take2or1 1 31 1 9
def takeHour : List Char → Option (Nat × List Char) := take2or1 0 23 0 9
def takeMin : List Char → Option (Nat × List Char) := take2or1 0 59 0 9
def takeSec : List Char → Option (Nat × List Char) := take2or1 0 61 0 9

def expectCh (c : Char) : List Char → Option (List Char)
  | [] => none
  | x :: r => if x == c then some r else none

/-- One or more whitespace characters (a literal blank in a `strptime`
format matches `\s+`). -/
def skipWs1 : List Char → Option (List Char)
  | [] => none
  | c :: r => if isSpaceCh c then some (r.dropWhile isSpaceCh) else none

/-- `%z`: `Z`, or `±HH[:]MM` optionally followed by `[:]SS`; offsets of a
whole day or more make `timezone()` raise, failing the attempt.  (The rarely
used fractional-seconds suffix of `%z` is not modelled.)  Returns the offset
in seconds. -/
def takeZone : List Char → Option (Int × List Char)
  | [] => none
  | c :: r =>
    if c = 'Z' then some (0, r)
    else if c = '+' ∨ c = '-' then
      match r with
      | h1 :: h2 :: r2 =>
        if isDigitCh h1 ∧ isDigitCh h2 then
          let hhv := 10 * digitVal h1 + digitVal h2
          let r3 := match r2 with
            | t0 :: t => if t0 = ':' then t else r2
            | _ => r2
          match r3 with
          | m1 :: m2 :: r4 =>
            if isDigitCh m1 ∧ isDigitCh m2 ∧ digitVal m1 ≤ 5 then
              let mmv := 10 * digitVal m1 + digitVal m2
              let r5 := match r4 with
                | t0 :: t => if t0 = ':' then t else r4
                | _ => r4
              let secPart : Option (Nat × List Char) :=
                match r5 with
                | s1 :: s2 :: r6 =>
                  if isDigitCh s1 ∧ isDigitCh s2 ∧ digitVal s1 ≤ 5 then
                    some (10 * digitVal s1 + digitVal s2, r6)
                  else none
                | _ => none
              let (ssv, rEnd) := match secPart with
                | some (v, r6) => (v, r6)
                | none => (0, r4)
              let total : Nat := hhv * 3600 + mmv * 60 + ssv
              if total < 86400 then
                some (if c = '-' then -(total : Int) else (total : Int), rEnd)
              else none
            else none
          | _ => none
        else none
      | _ => none
    else none

/-- Case-insensitive match of one of the given literal names; returns the
remainder after the matched name. -/
def matchNameCI (names : List String) (l : List Char) : Option (List Char) :=
  match names with
  | [] => none
  | nm :: rest =>
    if isPrefList (lowerL nm.toList) (lowerL l) then
      some (l.drop nm.toList.length)
    else matchNameCI rest l

/-- `%a` day-of-week abbreviations (value unused by `strptime`'s datetime
construction). -/
def dayAbbrevs : List String := ["mon", "tue", "wed", "thu", "fri", "sat", "sun"]

/-- `%b` month abbreviations, in month order. -/
def monthAbbrevs : List String :=
  ["jan", "feb", "mar", "apr", "may", "jun", "jul", "aug", "sep", "oct", "nov", "dec"]

/-- Match a `%b` month abbreviation, returning the month number. -/
def takeMonthName (l : List Char) : Option (Nat × List Char) :=
  let rec go : List String → Nat → Option (Nat × List Char)
    | [], _ => none
    | nm :: rest, i =>
      if isPrefList (lowerL nm.toList) (lowerL l) then
        some (i, l.drop nm.toList.length)
      else go rest (i + 1)
  go monthAbbrevs 1

/-- Validity gate: `datetime(...)` construction inside a `strptime` attempt. -/
def checkPDT (p : PDT) : Option PDT :=
  if validYMD p.y p.m p.d ∧ validHMS p.hh p.mi p.ss then some p else none


/-- `%H:%M:%S`, shared by the zoned patterns. -/
def takeHMS (l : List Char) : Option ((Nat × Nat × Nat) × List Char) :=
  match takeHour l with
  | none => none
  | some (hh, r1) =>
  match expectCh ':' r1 with
  | none => none
  | some r2 =>
  match takeMin r2 with
  | none => none
  | some (mi, r3) =>
  match expectCh ':' r3 with
  | none => none
  | some r4 =>
  match takeSec r4 with
  | none => none
  | some (ss, r5) => some ((hh, mi, ss), r5)

/-- `%H:%M`, shared by the minute-resolution patterns. -/
def takeHM (l : List Char) : Option ((Nat × Nat) × List Char) :=
  match takeHour l with
  | none => none
  | some (hh, r1) =>
  match expectCh ':' r1 with
  | none => none
  | some r2 =>
  match takeMin r2 with
  | none => none
  | some (mi, r3) => some ((hh, mi), r3)

/-- Shared date prefix `%Y‹sep›%m‹sep›%d` of the ISO-style patterns. -/
def pYMD (sep : Char) (l : List Char) : Option ((Nat × Nat × Nat) × List Char) :=
  match takeDigits 4 l with
  | none => none
  | some (y, r1) =>
  match expectCh sep r1 with
  | none => none
  | some r2 =>
  match takeMonth r2 with
  | none => none
  | some (m, r3) =>
  match expectCh sep r3 with
  | none => none
  | some r4 =>
  match takeDay r4 with
  | none => none
  | some (d, r5) => some ((y, m, d), r5)

/-- `"%a, %d %b %Y "` — the prefix the two RFC-822-style patterns share. -/
def pRfcDate (l : List Char) : Option ((Nat × Nat × Nat) × List Char) :=
  match matchNameCI dayAbbrevs l with
  | none => none
  | some r0 =>
  match expectCh ',' r0 with
  | none => none
  | some r1 =>
  match skipWs1 r1 with
  | none => none
  | some r2 =>
  match takeDay r2 with
  | none => none
  | some (d, r3) =>
  match skipWs1 r3 with
  | none => none
  | some r4 =>
  match takeMonthName r4 with
  | none => none
  | some (m, r5) =>
  match skipWs1 r5 with
  | none => none
  | some r6 =>
  match takeDigits 4 r6 with
  | none => none
  | some (y, r7) =>
  match skipWs1 r7 with
  | none => none
  | some r8 => some ((y, m, d), r8)

/-- `"%a, %d %b %Y %H:%M:%S %z"`. -/
def pRfcZ (l : List Char) : Option PDT :=
  match pRfcDate l with
  | none => none
  | some ((y, m, d), r8) =>
  match takeHMS r8 with
  | none => none
  | some ((hh, mi, ss), r9) =>
  match skipWs1 r9 with
  | none => none
  | some r10 =>
  match takeZone r10 with
  | none => none
  | some (z, r11) =>
    if r11.isEmpty then checkPDT ⟨y, m, d, hh, mi, ss, 0, some z⟩ else none

/-- `"%a, %d %b %Y %H:%M:%S %Z"` with the locale-independent zone names;
`%Z` leaves the result naive, so no explicit offset is recorded. -/
def pRfcNamed (l : List Char) : Option PDT :=
  match pRfcDate l with
  | none => none
  | some ((y, m, d), r8) =>
  match takeHMS r8 with
  | none => none
  | some ((hh, mi, ss), r9) =>
  match skipWs1 r9 with
  | none => none
  | some r10 =>
  match matchNameCI ["utc", "gmt"] r10 with
  | none => none
  | some r11 =>
    if r11.isEmpty then checkPDT ⟨y, m, d, hh, mi, ss, 0, none⟩ else none

/-- `"%Y-%m-%dT%H:%M:%SZ"` — the explicit attempt of the `Z → +0000` branch
(the trailing `Z` is a literal in this pattern, and the result is read as
UTC by `replace(tzinfo=timezone.utc)`). -/
def pIsoLiteralZ (l : List Char) : Option PDT :=
  match pYMD '-' l with
  | none => none
  | some ((y, m, d), r5) =>
  match expectCh 'T' r5 with
  | none => none
  | some r6 =>
  match takeHMS r6 with
  | none => none
  | some ((hh, mi, ss), r7) =>
  match expectCh 'Z' r7 with
  | none => none
  | some r8 =>
    if r8.isEmpty then checkPDT ⟨y, m, d, hh, mi, ss, 0, some 0⟩ else none

/-- `"%Y-%m-%dT%H:%M:%S%z"`. -/
def pIsoTz (l : List Char) : Option PDT :=
  match pYMD '-' l with
  | none => none
  | some ((y, m, d), r5) =>
  match expectCh 'T' r5 with
  | none => none
  | some r6 =>
  match takeHMS r6 with
  | none => none
  | some ((hh, mi, ss), r7) =>
  match takeZone r7 with
  | none => none
  | some (z, r8) =>
    if r8.isEmpty then checkPDT ⟨y, m, d, hh, mi, ss, 0, some z⟩ else none

/-- `%f`: one to six fraction digits, right-padded to microseconds.  Seven or
more digits cannot be followed by a valid `%z`, so the attempt fails. -/
def takeFrac (l : List Char) : Option (Nat × List Char) :=
  let ds := l.takeWhile isDigitCh
  let rest := l.dropWhile isDigitCh
  if ds.isEmpty ∨ 7 ≤ ds.length then none
  else some ((ds.foldl (fun a c => 10 * a + digitVal c) 0) * 10 ^ (6 - ds.length), rest)

/-- `"%Y-%m-%dT%H:%M:%S.%f%z"`. -/
def pIsoFracTz (l : List Char) : Option PDT :=
  match pYMD '-' l with
  | none => none
  | some ((y, m, d), r5) =>
  match expectCh 'T' r5 with
  | none => none
  | some r6 =>
  match takeHMS r6 with
  | none => none
  | some ((hh, mi, ss), r7) =>
  match expectCh '.' r7 with
  | none => none
  | some r8 =>
  match takeFrac r8 with
  | none => none
  | some (us, r9) =>
  match takeZone r9 with
  | none => none
  | some (z, r10) =>
    if r10.isEmpty then checkPDT ⟨y, m, d, hh, mi, ss, us, some z⟩ else none

/-- `"%Y-%m-%d %H:%M:%S%z"`. -/
def pSpTz (l : List Char) : Option PDT :=
  match pYMD '-' l with
  | none => none
  | some ((y, m, d), r5) =>
  match skipWs1 r5 with
  | none => none
  | some r6 =>
  match takeHMS r6 with
  | none => none
  | some ((hh, mi, ss), r7) =>
  match takeZone r7 with
  | none => none
  | some (z, r8) =>
    if r8.isEmpty then checkPDT ⟨y, m, d, hh, mi, ss, 0, some z⟩ else none

/-- `"%Y-%m-%d %H:%M"` (naive). -/
def pSpHm (l : List Char) : Option PDT :=
  match pYMD '-' l with
  | none => none
  | some ((y, m, d), r5) =>
  match skipWs1 r5 with
  | none => none
  | some r6 =>
  match takeHM r6 with
  | none => none
  | some ((hh, mi), r7) =>
    if r7.isEmpty then checkPDT ⟨y, m, d, hh, mi, 0, 0, none⟩ else none

/-- `"%Y-%m-%d"` (naive). -/
def pDateOnly (l : List Char) : Option PDT :=
  match pYMD '-' l with
  | none => none
  | some ((y, m, d), r5) =>
    if r5.isEmpty then checkPDT ⟨y, m, d, 0, 0, 0, 0, none⟩ else none

/-- `"%Y.%m.%d %H:%M"` (naive). -/
def pDotHm (l : List Char) : Option PDT :=
  match pYMD '.' l with
  | none => none
  | some ((y, m, d), r5) =>
  match skipWs1 r5 with
  | none => none
  | some r6 =>
  match takeHM r6 with
  | none => none
  | some ((hh, mi), r7) =>
    if r7.isEmpty then checkPDT ⟨y, m, d, hh, mi, 0, 0, none⟩ else none

/-- `"%Y.%m.%d"` (naive). -/
def pDotOnly (l : List Char) : Option PDT :=
  match pYMD '.' l with
  | none => none
  | some ((y, m, d), r5) =>
    if r5.isEmpty then checkPDT ⟨y, m, d, 0, 0, 0, 0, none⟩ else none

/-- The `DATE_PATTERNS` list, in source order. -/
def datePatterns : List (List Char → Option PDT) :=
  [pRfcZ, pRfcNamed, pIsoTz, pIsoFracTz, pSpTz, pSpHm, pDateOnly, pDotHm, pDotOnly]

/-- A naive result is localized to KST (`dt.replace(tzinfo=KST)`), a zoned
one keeps its offset; `astimezone(KST)` does not change the instant. -/
def instantOfPDT (p : PDT) : Int :=
  civilInstant p.y p.m p.d p.hh p.mi p.ss (p.zone.getD kstSec) p.usec

def firstPattern : List (List Char → Option PDT) → List Char → Option PDT
  | [], _ => none
  | p :: ps, l =>
    match p l with
    | some v => some v
    | none => firstPattern ps l

/-- The forced-extraction fallback: leftmost match of four year digits, a
separator, one or two month digits, a separator, one or two day digits and
an optional `\s+` plus `HH:MM` time suffix, where each separator is one of
dot, dash, slash.  `takeSep` consumes one separator character. -/
def takeSep : List Char → Option (List Char)
  | [] => none
  | c :: r => if c = '.' ∨ c = '-' ∨ c = '/' then some r else none

/-- `\d{1,2}` immediately followed by a separator (the regex backtracks from
two digits to one when the separator fails). -/
def take12Sep : List Char → Option (Nat × List Char)
  | c1 :: c2 :: r =>
    if isDigitCh c1 then
      if isDigitCh c2 then
        match takeSep r with
        | some r' => some (10 * digitVal c1 + digitVal c2, r')
        | none =>
          match takeSep (c2 :: r) with
          | some r' => some (digitVal c1, r')
          | none => none
      else
        match takeSep (c2 :: r) with
        | some r' => some (digitVal c1, r')
        | none => none
    else none
  | _ => none

/-- Plain `\d{1,2}`, greedy. -/
def take12 : List Char → Option (Nat × List Char)
  | [] => none
  | c1 :: r =>
    if isDigitCh c1 then
      match r with
      | c2 :: r2 => if isDigitCh c2 then some (10 * digitVal c1 + digitVal c2, r2)
                    else some (digitVal c1, r)
      | [] => some (digitVal c1, [])
    else none

/-- `\d{1,2}` immediately followed by `:` (hour of the optional time group). -/
def take12Colon : List Char → Option (Nat × List Char)
  | c1 :: c2 :: r =>
    if isDigitCh c1 then
      if isDigitCh c2 then
        match r with
        | r0 :: r' =>
          if r0 = ':' then some (10 * digitVal c1 + digitVal c2, r')
          else if c2 == ':' then some (digitVal c1, r) else none
        | _ => if c2 == ':' then some (digitVal c1, r) else none
      else if c2 == ':' then some (digitVal c1, r) else none
    else none
  | _ => none

/-- The optional `(?:\s+(\d{1,2}):(\d{2}))?` time suffix. -/
def fbTime (l : List Char) : Option (Nat × Nat) :=
  match skipWs1 l with
  | none => none
  | some r1 =>
  match take12Colon r1 with
  | none => none
  | some (hh, r2) =>
  match takeDigits 2 r2 with
  | none => none
  | some (mi, _) => some (hh, mi)

/-- Try the fallback regex at one position. -/
def fbMatchAt (l : List Char) : Option (Nat × Nat × Nat × Nat × Nat) :=
  match takeDigits 4 l with
  | none => none
  | some (y, r1) =>
  match takeSep r1 with
  | none => none
  | some r2 =>
  match take12Sep r2 with
  | none => none
  | some (m, r3) =>
  match take12 r3 with
  | none => none
  | some (d, r4) =>
  match fbTime r4 with
  | some (hh, mi) => some (y, m, d, hh, mi)
  | none => some (y, m, d, 0, 0)

/-- `re.search`: leftmost position where the fallback pattern matches. -/
def fbSearch : List Char → Option (Nat × Nat × Nat × Nat × Nat)
  | [] => none
  | l@(_ :: t) =>
    match fbMatchAt l with
    | some v => some v
    | none => fbSearch t

/-- `parse_dt`: strip; empty → `None`; the `Z`-suffix branch; the
`DATE_PATTERNS` loop; the forced digit-extraction fallback (whose
`datetime` construction failure returns `None` outright). -/
def parse_dt (s : String) : Option Int :=
  let t := pyStripL s.toList
  if t.isEmpty then none
  else
    let zBranch : Option PDT :=
      if t.getLast? = some 'Z' ∧ t.contains 'T' then pIsoLiteralZ t else none
    match zBranch with
    | some p => some (instantOfPDT p)
    | none =>
      match firstPattern datePatterns t with
      | some p => some (instantOfPDT p)
      | none =>
        match fbSearch t with
        | some (y, m, d, hh, mi) =>
          if validYMD y m d ∧ validHMS hh mi 0 then
            some (civilInstant y m d hh mi 0 kstSec 0)
          else none
        | none => none

/-! ## Keyword sets and the source classifier (`KW`, `categorize`) -/

/-- Literal alternatives of `KW["노동뉴스"]`, in source order; the
non-literal alternative `주\s?52시간` is handled by `matchJu52L`. -/
def kwLaborLits : List String :=
  ["노동", "근로", "근로기준법", "산업안전보건", "최저임금", "모성보호", "육아",
   "남녀고용평등", "노사관계", "통상임금", "연차", "포괄임금", "근로시간단축", "타임오프"]

/-- The `주\s?52시간` alternative: `주`, at most one whitespace, `52시간`. -/
def matchJu52L : List Char → Bool
  | [] => false
  | c :: rest =>
    (c == '주' && (isPrefList "52시간".toList rest ||
      (match rest with
       | w :: r2 => isSpaceCh w && isPrefList "52시간".toList r2
       | [] => false))) || matchJu52L rest

def kwLaborMatch (t : String) : Bool :=
  searchAnyCI kwLaborLits t || matchJu52L t.toList

def kwFscLits : List String := ["금융위원회", "금융위", "증선위", "FIU", "정책금융"]

def kwFssLits : List String := ["금융감독원", "금감원", "DART", "전자공시"]

/-- Python `\w` (`re.UNICODE`): ASCII alphanumerics, underscore, and all
non-ASCII word characters — the non-ASCII text in these feeds is Korean,
which is entirely word characters. -/
def isWordCh (c : Char) : Bool :=
  c.isAlpha || isDigitCh c || c = '_' || 128 ≤ c.toNat

/-- Scan for an occurrence of `alt` with a word boundary on both sides
(`alt` starts and ends with word characters, so `\b` holds exactly when the
neighbouring character is absent or a non-word character).  `prev` is the
character just before the current position. -/
def boundScan (alt : List Char) (prev : Option Char) : List Char → Bool
  | [] => false
  | c :: rest =>
    ((match prev with
      | none => true
      | some p => !isWordCh p) &&
     isPrefList alt (c :: rest) &&
     (match (c :: rest).drop alt.length with
      | [] => true
      | a :: _ => !isWordCh a)) || boundScan alt (some c) rest

/-- Alternatives of `KW["ESG뉴스"]` = `\b(ESG|지속가능경영|지배구조|ESG공시|KCGS|한국ESG기준원)\b`. -/
def kwEsgLits : List String :=
  ["ESG", "지속가능경영", "지배구조", "ESG공시", "KCGS", "한국ESG기준원"]

def kwEsgMatch (t : String) : Bool :=
  kwEsgLits.any (fun a => boundScan (lowerL a.toList) none (lowerL t.toList))

/-- First matching label of the ordered `KW` mapping. -/
def kwFirstLabel (t : String) : Option String :=
  if kwLaborMatch t then some "노동뉴스"
  else if searchAnyCI kwFscLits t then some "금융위뉴스"
  else if searchAnyCI kwFssLits t then some "금감원뉴스"
  else if kwEsgMatch t then some "ESG뉴스"
  else none

/-- `categorize(feed_url, title, summary)`: source-identity rules in source
order, then the keyword fallback. -/
def categorize (feedUrl title summary : String) : String :=
  let t := pyStrip (title ++ " " ++ summary)
  if containsStr feedUrl "fsc.go.kr" then "금융위 보도자료"
  else if containsStr feedUrl "moel.go.kr" && containsStr feedUrl "lawinfo" then "입법·행정예고"
  else if containsStr feedUrl "moel.go.kr" then "노동부 소식"
  else if containsStr feedUrl "moleg.go.kr" && containsStr feedUrl "ll_rss" then "최신 시행법령"
  else if containsStr feedUrl "moleg.go.kr" && containsStr feedUrl "li_rss" then "입법예고"
  else if containsStr feedUrl "news.google.com" then (kwFirstLabel t).getD "뉴스"
  else (kwFirstLabel t).getD "기타"

/-! ## Data model and collection (`collect_items`) -/

/-- One raw feed entry as produced by `parse_rss`/`collect_from_dart`:
title, link, summary/description, and the raw `pubDate` string. -/
structure Entry where
  title : String
  link : String
  summary : String
  pub : String
deriving Repr, DecidableEq

/-- Outcome of fetching one configured source URL.  Fetching itself is an
external collaborator, so its result is an input of the embedding:
`ok` — fetched and parsed RSS/Atom entries; `dart` — entries scraped by
`collect_from_dart` (which swallows its own fetch errors and does not set
the `feed` key, so those items default to feed `"unknown"`);
`parseFail` — the body was fetched but `parse_rss` raised (the inner
`except: pass` drops the source silently); `fail` — the fetch raised, which
`collect_items` converts into an `[ERR]` pseudo-item. -/
inductive FetchResult where
  | ok (entries : List Entry)
  | dart (entries : List Entry)
  | parseFail
  | fail (msg : String)
deriving Repr, DecidableEq

structure Source where
  url : String
  result : FetchResult
deriving Repr, DecidableEq

/-- A normalized item: the raw fields plus `feed`, the classifier's `cat`
and the parsed `_dt` instant. -/
structure Item where
  title : String
  link : String
  summary : String
  pub : String
  feed : String
  cat : String
  dt : Option Int
deriving Repr, DecidableEq

def defaultItem : Item := ⟨"", "", "", "", "", "", none⟩

/-- The pre-enrichment dict shape built in `collect_items`' first loop. -/
structure RawRec where
  title : String
  link : String
  summary : String
  pub : String
  feed : String
deriving Repr, DecidableEq

def rawsOf (s : Source) : List RawRec :=
  match s.result with
  | .ok es => es.map (fun e => ⟨e.title, e.link, e.summary, e.pub, s.url⟩)
  | .dart es => es.map (fun e => ⟨e.title, e.link, e.summary, e.pub, "unknown"⟩)
  | .parseFail => []
  | .fail msg => [⟨"[ERR] " ++ s.url, "", msg, "", s.url⟩]

/-- `collect_items`: gather per-source results (error pseudo-items for
failed fetches), then enrich each with `cat = categorize(...)` and
`_dt = parse_dt(pub)`. -/
def collect_items (sources : List Source) : List Item :=
  (List.flatten (sources.map rawsOf)).map
    (fun r => ⟨r.title, r.link, r.summary, r.pub, r.feed,
               categorize r.feed r.title r.summary, parse_dt r.pub⟩)

/-! ## The popularity ranker (`normalize_title`, `pick_top3_by_popularity`) -/

/-- Replace every maximal whitespace run by one space
(`re.sub(r"\s+"," ",t)`): a whitespace character followed by more
whitespace is dropped, the last of a run becomes a single space. -/
def collapseWs : List Char → List Char
  | [] => []
  | c :: r =>
    if isSpaceCh c then
      if (r.head?.map isSpaceCh).getD false then collapseWs r
      else ' ' :: collapseWs r
    else c :: collapseWs r

/-- Split at the first occurrence of `stop`, dropping it. -/
def splitAtCh (stop : Char) : List Char → Option (List Char × List Char)
  | [] => none
  | c :: r =>
    if c = stop then some ([], r)
    else (splitAtCh stop r).map (fun p => (c :: p.1, p.2))

/-- Remove every `[...]` and `(...)` segment with nonempty body, leftmost
first (`re.sub(r"\[[^\]]+\]|\([^)]+\)", "", t)`); fuel-driven scan (the fuel
is the length of the list, and every step consumes at least one character). -/
def stripBrackets : Nat → List Char → List Char
  | 0, l => l
  | _ + 1, [] => []
  | fuel + 1, c :: rest =>
    if c = '[' then
      match splitAtCh ']' rest with
      | some (inner, after) =>
        if inner.isEmpty then c :: stripBrackets fuel rest
        else stripBrackets fuel after
      | none => c :: stripBrackets fuel rest
    else if c = '(' then
      match splitAtCh ')' rest with
      | some (inner, after) =>
        if inner.isEmpty then c :: stripBrackets fuel rest
        else stripBrackets fuel after
      | none => c :: stripBrackets fuel rest
    else c :: stripBrackets fuel rest

/-- `normalize_title`: collapse whitespace, strip, lowercase, then remove
bracketed/parenthesised segments. -/
def normalize_title (t : String) : String :=
  let s1 := lowerL (pyStripL (collapseWs t.toList))
  String.mk (stripBrackets s1.length s1)

/-- The recency key: a missing `_dt` is replaced by `datetime.min` at KST. -/
def sentKey (it : Item) : Int := it.dt.getD dtMinKst

/-- `max` of a nonempty list of instants (Python `max`; the empty case is
unreachable because buckets are nonempty). -/
def listMaxInt : List Int → Int
  | [] => dtMinKst
  | x :: xs => xs.foldl max x

/-- Stable insertion into a descending-sorted list: `x` moves past only
strictly greater keys, so among equal keys the earlier element stays first —
exactly Python's stable `sorted(..., reverse=True)`. -/
def insertDescBy {α : Type} (lt : α → α → Bool) (x : α) : List α → List α
  | [] => [x]
  | y :: ys => if lt x y then y :: insertDescBy lt x ys else x :: y :: ys

def sortDescBy {α : Type} (lt : α → α → Bool) : List α → List α
  | [] => []
  | x :: xs => insertDescBy lt x (sortDescBy lt xs)

/-- Python tuple `<` on the ranking key `(len(grp), max(dt))`. -/
def lexLtKey (p q : Int × Int) : Bool := p.1 < q.1 || (p.1 == q.1 && p.2 < q.2)

/-- Bucket association list preserving key insertion order and item order
within each bucket (`buckets.setdefault(key, []).append(it)`). -/
def addBucket (k : String) (it : Item) : List (String × List Item) → List (String × List Item)
  | [] => [(k, [it])]
  | (k0, g) :: rest =>
    if k0 == k then (k0, g ++ [it]) :: rest
    else (k0, g) :: addBucket k it rest

def bucketKeyOf (it : Item) : String :=
  let n := normalize_title it.title
  if n = "" then it.link else n

def bucketsOf (items : List Item) : List (String × List Item) :=
  items.foldl (fun bs it => addBucket (bucketKeyOf it) it bs) []

/-- Ranking key of a bucket: `(len(grp), max(_dt or datetime.min))`. -/
def grpKey (grp : List Item) : Int × Int :=
  ((grp.length : Int), listMaxInt (grp.map sentKey))

/-- Representative of a bucket: first element of the stable descending sort
by recency, i.e. the first item attaining the most recent instant. -/
def repOf (grp : List Item) : Item :=
  (sortDescBy (fun a b => sentKey a < sentKey b) grp).headD defaultItem

/-- `pick_top3_by_popularity`: bucket, rank buckets descending by
`(size, max recency)`, then take each ranked bucket's most recent
representative, stopping after three. -/
def pick_top3_by_popularity (items : List Item) : List Item :=
  let ranked := sortDescBy (fun g1 g2 => lexLtKey (grpKey g1) (grpKey g2))
    ((bucketsOf items).map (fun b => b.2))
  (ranked.take 3).map repOf

/-! ## Labor-law whitelist filter (`is_labor_law_item`) -/

/-- `LABOR_LAWS`, in source order. -/
def laborLaws : List String :=
  ["근로기준법", "산업안전보건법", "최저임금법", "남녀고용평등", "고용보험법",
   "근로자퇴직급여", "기간제 및 단시간근로자 보호", "파견근로자보호",
   "노동조합 및 노동관계조정법", "근로복지기본법", "고용정책 기본법",
   "직업안정법", "산재보험", "모성보호", "육아기 근로시간 단축", "남녀고용평등법"]

/-- `LABOR_BACKUP_PAT` literal alternatives. -/
def laborBackup : List String :=
  ["근로", "노동", "모성보호", "육아", "남녀고용평등", "최저임금", "산업안전", "퇴직급여"]

def labText (it : Item) : String := it.title ++ " " ++ it.summary

def legisCats : List String := ["입법예고", "최신 시행법령", "입법·행정예고"]

/-- `is_labor_law_item`: in the three legislative categories, admit iff the
statute whitelist or the backup keyword pattern matches; all other
categories pass unchanged. -/
def is_labor_law_item (it : Item) : Bool :=
  if it.cat == "입법예고" || it.cat == "최신 시행법령" || it.cat == "입법·행정예고" then
    searchAnyCI laborLaws (labText it) || searchAnyCI laborBackup (labText it)
  else true

/-- `KCGS_PAT.search(f"{title} {summary}")`. -/
def kcgsPatMatch (it : Item) : Bool :=
  searchAnyCI ["한국ESG기준원", "KCGS"] (it.title ++ " " ++ it.summary)

/-! ## Content identifier (`mk_id`) -/

/-- `mk_id`: the SHA-256 hex digest of `title + "|" + link` is modelled by
its digest input — equal inputs give equal digests, distinct inputs give
distinct digests except for hash collisions, and both the digest and the
model are nonempty strings for every input. -/
def mk_id (title link : String) : String := title ++ "|" ++ link

/-! ## The orchestrator (`process_once`) -/

/-- The `seen` row written for a delivered item (`first_seen_ts`, the
external clock's isoformat string, carries no pipeline logic and is
omitted). -/
structure Rec where
  id : String
  title : String
  link : String
  pubdate : String
  feed : String
  cat : String
deriving Repr, DecidableEq

def recOf (it : Item) : Rec :=
  ⟨mk_id it.title it.link, it.title, it.link, it.pub, it.feed, it.cat⟩

def ledgerHas (led : List Rec) (uid : String) : Bool :=
  led.any (fun r => r.id == uid)

/-- `now.date() - timedelta(days=1)` on the KST civil date. -/
def prevDate : Nat × Nat × Nat → Nat × Nat × Nat
  | (y, m, d) =>
    if 2 ≤ d then (y, m, d - 1)
    else if 2 ≤ m then (y, m - 1, daysInMonth y (m - 1))
    else (y - 1, 12, 31)

/-- `win_start_dt`: yesterday 00:00:00 KST. -/
def winStartOf (today : Nat × Nat × Nat) : Int :=
  let p := prevDate today
  civilInstant p.1 p.2.1 p.2.2 0 0 0 kstSec 0

/-- `win_end_dt`: yesterday 23:59:59 KST. -/
def winEndOf (today : Nat × Nat × Nat) : Int :=
  let p := prevDate today
  civilInstant p.1 p.2.1 p.2.2 23 59 59 kstSec 0

/-- Step 1 of `process_once`: `it.get("_dt") and win_start <= _dt <= win_end`. -/
def inWindow (ws we : Int) (it : Item) : Bool :=
  match it.dt with
  | none => false
  | some t => decide (ws ≤ t) && decide (t ≤ we)

def windowedItems (today : Nat × Nat × Nat) (sources : List Source) : List Item :=
  (collect_items sources).filter (inWindow (winStartOf today) (winEndOf today))

/-- Ordered counter dict for the observability summary. -/
def bumpKey (k : String) : List (String × Nat) → List (String × Nat)
  | [] => [(k, 1)]
  | (k0, n) :: rest =>
    if k0 == k then (k0, n + 1) :: rest else (k0, n) :: bumpKey k rest

def summaryKey (it : Item) : String :=
  if isPrefList "[ERR]".toList it.title.toList then "ERR" else it.cat

/-- Step 2 of `process_once`: the per-category / ERR counts over the
window-filtered items. -/
def summaryOf (items : List Item) : List (String × Nat) :=
  items.foldl (fun s it => bumpKey (summaryKey it) s) []

/-- Step 3: the KCGS candidate list. -/
def kcgsItemsOf (items : List Item) : List Item :=
  items.filter (fun it => (it.cat == "ESG뉴스" || it.cat == "뉴스") && kcgsPatMatch it)

/-- Step 3: the ESG candidate list. -/
def esgItemsOf (items : List Item) : List Item :=
  items.filter (fun it => it.cat == "ESG뉴스" && !kcgsPatMatch it)

/-- `allowed_top_ids`. -/
def allowedIdsOf (items : List Item) : List String :=
  (pick_top3_by_popularity (kcgsItemsOf items)
    ++ pick_top3_by_popularity (esgItemsOf items)).map (fun it => mk_id it.title it.link)

/-- The pure per-item guards of steps 4–6 before the ledger lookup: the
labor-law filter, the top-3 admission for `ESG뉴스`/`뉴스`, and the
(vacuous for `mk_id`) empty-identifier rejection. -/
def passChecks (allowed : List String) (it : Item) : Bool :=
  is_labor_law_item it &&
  (!(it.cat == "ESG뉴스" || it.cat == "뉴스") || allowed.contains (mk_id it.title it.link)) &&
  mk_id it.title it.link != ""

/-- The delivery loop: for each surviving item not yet in the ledger,
insert its row and send it (sending is external; the sent items are
returned in order). -/
def deliver (allowed : List String) : List Item → List Rec → List Rec × List Item
  | [], led => (led, [])
  | it :: rest, led =>
    if passChecks allowed it && !ledgerHas led (mk_id it.title it.link) then
      let r := deliver allowed rest (led ++ [recOf it])
      (r.1, it :: r.2)
    else deliver allowed rest led

/-- Result of one `process_once` pass: the final ledger, the delivered
items in delivery order, and the observability summary. -/
structure RunOut where
  ledger : List Rec
  sent : List Item
  summary : List (String × Nat)
deriving Repr, DecidableEq

/-- `process_once`, parameterized by the KST civil date of `now` (only
`now.date()` reaches the pipeline logic) and by the fetch outcomes. -/
def process_once (today : Nat × Nat × Nat) (sources : List Source)
    (ledger : List Rec) : RunOut :=
  let items := windowedItems today sources
  let allowed := allowedIdsOf items
  let r := deliver allowed items ledger
  ⟨r.1, r.2, summaryOf items⟩

/-! ## Helper lemmas about the delivery loop -/

theorem deliver_ledger_eq (a : List String) :
    ∀ (items : List Item) (led : List Rec),
      (deliver a items led).1 = led ++ ((deliver a items led).2.map recOf) := by
  intro items
  induction items with
  | nil => intro led; simp [deliver]
  | cons it rest ih =>
    intro led
    simp only [deliver]
    by_cases h : (passChecks a it && !ledgerHas led (mk_id it.title it.link)) = true
    · rw [if_pos h]
      simp only [List.map_cons]
      rw [ih (led ++ [recOf it])]
      simp
    · rw [if_neg h]
      exact ih led

theorem deliver_sent_pass (a : List String) :
    ∀ (items : List Item) (led : List Rec) (d : Item),
      d ∈ (deliver a items led).2 → passChecks a d = true := by
  intro items
  induction items with
  | nil => intro led d hd; simp [deliver] at hd
  | cons it rest ih =>
    intro led d hd
    simp only [deliver] at hd
    by_cases h : (passChecks a it && !ledgerHas led (mk_id it.title it.link)) = true
    · rw [if_pos h] at hd
      rcases List.mem_cons.mp hd with rfl | hd'
      · obtain ⟨h1, _⟩ : passChecks a d = true ∧ (!ledgerHas led (mk_id d.title d.link)) = true := by
          simpa using h
        exact h1
      · exact ih _ d hd'
    · rw [if_neg h] at hd
      exact ih led d hd

theorem deliver_count_zero (a : List String) (x : String) :
    ∀ (items : List Item) (led : List Rec), ledgerHas led x = true →
      (deliver a items led).2.countP (fun it => mk_id it.title it.link == x) = 0 := by
  intro items
  induction items with
  | nil => intro led _; simp [deliver]
  | cons it rest ih =>
    intro led hled
    simp only [deliver]
    by_cases h : (passChecks a it && !ledgerHas led (mk_id it.title it.link)) = true
    · rw [if_pos h]
      have hnot : ledgerHas led (mk_id it.title it.link) = false := by
        obtain ⟨_, h2⟩ : passChecks a it = true ∧ (!ledgerHas led (mk_id it.title it.link)) = true := by
          simpa using h
        simpa using h2
      have hne : (mk_id it.title it.link == x) = false := by
        by_contra hc
        have : mk_id it.title it.link = x := by
          have := Bool.of_not_eq_false hc
          exact beq_iff_eq.mp this
        rw [this] at hnot
        rw [hnot] at hled
        exact Bool.false_ne_true hled
      rw [List.countP_cons]
      have hled' : ledgerHas (led ++ [recOf it]) x = true := by
        simp only [ledgerHas, List.any_append] at hled ⊢
        rw [hled]; rfl
      rw [ih (led ++ [recOf it]) hled']
      simp [hne]
    · rw [if_neg h]
      exact ih led hled

theorem deliver_count_le_one (a : List String) (x : String) :
    ∀ (items : List Item) (led : List Rec),
      (deliver a items led).2.countP (fun it => mk_id it.title it.link == x) ≤ 1 := by
  intro items
  induction items with
  | nil => intro led; simp [deliver]
  | cons it rest ih =>
    intro led
    simp only [deliver]
    by_cases h : (passChecks a it && !ledgerHas led (mk_id it.title it.link)) = true
    · rw [if_pos h]
      rw [List.countP_cons]
      by_cases hx : (mk_id it.title it.link == x) = true
      · have hid : mk_id it.title it.link = x := beq_iff_eq.mp hx
        have hled' : ledgerHas (led ++ [recOf it]) x = true := by
          simp only [ledgerHas, List.any_append, List.any_cons, List.any_nil]
          have : (recOf it).id == x := by
            simp only [recOf]
            exact beq_iff_eq.mpr hid
          rw [this]
          simp
        rw [deliver_count_zero a x rest (led ++ [recOf it]) hled']
        simp [hx]
      · rw [Bool.eq_false_iff.mpr hx] -- rewrite the if on the predicate value
        simp only [Bool.false_eq_true, if_false, Nat.add_zero]
        exact ih (led ++ [recOf it])
    · rw [if_neg h]
      exact ih led

theorem deliver_sent_in_ledger (a : List String) (x : String)
    (items : List Item) (led : List Rec)
    (h : 0 < (deliver a items led).2.countP (fun it => mk_id it.title it.link == x)) :
    ledgerHas (deliver a items led).1 x = true := by
  rcases List.countP_pos_iff.mp h with ⟨d, hd, hp⟩
  rw [deliver_ledger_eq]
  simp only [ledgerHas, List.any_append, List.any_map]
  have : ((deliver a items led).2.any fun it => (recOf it).id == x) = true := by
    rw [List.any_eq_true]
    exact ⟨d, hd, hp⟩
  rw [Bool.or_eq_true]
  right
  simpa [Function.comp] using this


/-! ## Claim C1 -/

/-- Claim C1: running `process_once` twice over the same batch of raw items
against a shared ledger delivers and records each distinct content id at
most once in total across both runs — the loop checks the `seen` table
before sending and inserting, so an id delivered in the first run (or
earlier in the same run) is never delivered again. -/
theorem c1_idempotent_delivery (today : Nat × Nat × Nat) (sources : List Source)
    (led0 : List Rec) (x : String) :
    ((process_once today sources led0).sent
      ++ (process_once today sources (process_once today sources led0).ledger).sent).countP
        (fun it => mk_id it.title it.link == x) ≤ 1
    ∧ (process_once today sources (process_once today sources led0).ledger).ledger.countP
        (fun r => r.id == x)
      ≤ led0.countP (fun r => r.id == x) + 1 := by
  simp only [process_once]
  rw [List.countP_append]
  set A := allowedIdsOf (windowedItems today sources) with hA
  set I := windowedItems today sources with hI
  have hcnt : (deliver A I led0).2.countP (fun it => mk_id it.title it.link == x)
      + (deliver A I (deliver A I led0).1).2.countP (fun it => mk_id it.title it.link == x) ≤ 1 := by
    rcases Nat.eq_zero_or_pos ((deliver A I led0).2.countP (fun it => mk_id it.title it.link == x))
      with h0 | hpos
    · rw [h0]
      simpa using deliver_count_le_one A x I (deliver A I led0).1
    · have hled : ledgerHas (deliver A I led0).1 x = true :=
        deliver_sent_in_ledger A x I led0 hpos
      rw [deliver_count_zero A x I (deliver A I led0).1 hled]
      have := deliver_count_le_one A x I led0
      omega
  refine ⟨hcnt, ?_⟩
  have e2 : (deliver A I (deliver A I led0).1).1
      = (deliver A I led0).1 ++ ((deliver A I (deliver A I led0).1).2.map recOf) :=
    deliver_ledger_eq A I (deliver A I led0).1
  have e1 : (deliver A I led0).1 = led0 ++ ((deliver A I led0).2.map recOf) :=
    deliver_ledger_eq A I led0
  have hc1 : (deliver A I led0).2.countP ((fun r => r.id == x) ∘ recOf)
      = (deliver A I led0).2.countP (fun it => mk_id it.title it.link == x) := rfl
  have hc2 : (deliver A I (deliver A I led0).1).2.countP ((fun r => r.id == x) ∘ recOf)
      = (deliver A I (deliver A I led0).1).2.countP (fun it => mk_id it.title it.link == x) := rfl
  have k1 : (deliver A I led0).1.countP (fun r => r.id == x)
      = led0.countP (fun r => r.id == x)
        + (deliver A I led0).2.countP (fun it => mk_id it.title it.link == x) := by
    rw [e1, List.countP_append, List.countP_map, hc1]
  have k2 : (deliver A I (deliver A I led0).1).1.countP (fun r => r.id == x)
      = (deliver A I led0).1.countP (fun r => r.id == x)
        + (deliver A I (deliver A I led0).1).2.countP
            (fun it => mk_id it.title it.link == x) := by
    rw [e2, List.countP_append, List.countP_map, hc2]
  rw [k2, k1]
  omega


/-! ## Claim C2 -/

/-- The code's inclusive window end (yesterday 23:59:59 KST) is exactly one
second short of the exclusive day boundary. -/
theorem winEnd_eq (t : Nat × Nat × Nat) : winEndOf t = winStartOf t + 86399000000 := by
  simp only [winEndOf, winStartOf, civilInstant, usecPerDay, kstSec]
  push_cast
  omega

/-- Claim C2: the time-window filter retains exactly the collected items
whose parsed `publishedAt` lies in the delivery window: an item with
`publishedAt` exactly at the window's start boundary is included, an item
at or after the exclusive end boundary (the following midnight) is
excluded, and an item whose `parse_dt` returned absent is always
excluded — never included by default. -/
theorem c2_time_window (today : Nat × Nat × Nat) (sources : List Source) (it : Item) :
    (it ∈ windowedItems today sources ↔
      it ∈ collect_items sources ∧
        ∃ d, it.dt = some d ∧ winStartOf today ≤ d ∧ d ≤ winEndOf today)
    ∧ (it.dt = some (winStartOf today) → it ∈ collect_items sources →
        it ∈ windowedItems today sources)
    ∧ (∀ d, it.dt = some d → winStartOf today + 86400000000 ≤ d →
        it ∉ windowedItems today sources)
    ∧ (it.dt = none → it ∉ windowedItems today sources) := by
  have hiff : it ∈ windowedItems today sources ↔
      it ∈ collect_items sources ∧
        ∃ d, it.dt = some d ∧ winStartOf today ≤ d ∧ d ≤ winEndOf today := by
    simp only [windowedItems, List.mem_filter]
    constructor
    · rintro ⟨hmem, hw⟩
      refine ⟨hmem, ?_⟩
      cases hd : it.dt with
      | none => simp [inWindow, hd] at hw
      | some d =>
        refine ⟨d, rfl, ?_, ?_⟩
        · have := hw
          simp [inWindow, hd] at this
          exact this.1
        · have := hw
          simp [inWindow, hd] at this
          exact this.2
    · rintro ⟨hmem, d, hd, h1, h2⟩
      exact ⟨hmem, by simp [inWindow, hd, h1, h2]⟩
  refine ⟨hiff, ?_, ?_, ?_⟩
  · intro hdt hmem
    refine hiff.mpr ⟨hmem, winStartOf today, hdt, le_refl _, ?_⟩
    rw [winEnd_eq]
    omega
  · intro d hdt hge hmem
    rcases (hiff.mp hmem).2 with ⟨d2, hd2, hle, hend⟩
    rw [hdt] at hd2
    have : d = d2 := by injection hd2
    rw [winEnd_eq] at hend
    omega
  · intro hnone hmem
    rcases (hiff.mp hmem).2 with ⟨d2, hd2, _, _⟩
    rw [hnone] at hd2
    exact Option.noConfusion hd2

def c2Feed : String := "https://www.moel.go.kr/rss/policy.do"

def c2Src : Source :=
  ⟨c2Feed, .ok [⟨"가", "l1", "", "2025-11-11 00:00"⟩, ⟨"나", "l2", "", "2025-11-12"⟩,
                ⟨"다", "l3", "", ""⟩]⟩

def c2Today : Nat × Nat × Nat := (2025, 11, 12)

def c2ItA : Item :=
  ⟨"가", "l1", "", "2025-11-11 00:00", c2Feed, "노동부 소식", some 1762786800000000⟩

def c2ItB : Item :=
  ⟨"나", "l2", "", "2025-11-12", c2Feed, "노동부 소식", some 1762873200000000⟩

def c2ItC : Item := ⟨"다", "l3", "", "", c2Feed, "노동부 소식", none⟩

/-- Witness for C2: for a run whose `now` falls on 2025-11-12 KST, an item
published exactly at the start boundary (2025-11-11 00:00 KST) is retained,
one exactly at the exclusive end boundary (2025-11-12 00:00 KST) is
dropped, and one with an unparseable date is dropped. -/
theorem c2_time_window_witness :
    c2ItA ∈ windowedItems c2Today [c2Src]
    ∧ c2ItB ∉ windowedItems c2Today [c2Src]
    ∧ c2ItC ∉ windowedItems c2Today [c2Src] :=
  ⟨(c2_time_window c2Today [c2Src] c2ItA).2.1 (by decide) (by decide),
   (c2_time_window c2Today [c2Src] c2ItB).2.2.1 1762873200000000 (by decide) (by decide),
   (c2_time_window c2Today [c2Src] c2ItC).2.2.2 (by decide)⟩


/-! ## Claim C3 -/

def c3FailSrc : Source := ⟨"https://www.moel.go.kr/rss/notice.do", .fail "ConnectTimeout"⟩

def c3OkSrc : Source :=
  ⟨"https://www.moel.go.kr/rss/policy.do",
   .ok [⟨"근로감독 결과 발표", "http://moel/1", "", "2025-11-11 10:00"⟩]⟩

/-- Claim C3, evaluated at the failing input: with one source failing and
one healthy source, `collect_items` does produce exactly one `[ERR]`
pseudo-item and the healthy source's item is still classified and
delivered — but the pseudo-item has an empty `pub`, so its `_dt` is absent,
the previous-day window filter removes it before the summary is computed,
and the run's summary is `[("노동부 소식", 1)]` with no `ERR` entry at all,
contrary to the claim (and to the module docstring's promised `ERR 건수`). -/
theorem c3_err_missing_from_summary :
    ((collect_items [c3FailSrc, c3OkSrc]).filter
        (fun it => isPrefList "[ERR]".toList it.title.toList)).length = 1
    ∧ ((collect_items [c3FailSrc, c3OkSrc]).filter
        (fun it => isPrefList "[ERR]".toList it.title.toList)).all
          (fun it => it.dt == none) = true
    ∧ (process_once (2025, 11, 12) [c3FailSrc, c3OkSrc] []).sent.length = 1
    ∧ (process_once (2025, 11, 12) [c3FailSrc, c3OkSrc] []).summary
        = [("노동부 소식", 1)] := by decide

/-! ## Claim C4 -/

def c4Admit : Item :=
  ⟨"근로기준법 일부개정법률안 입법예고", "", "", "", "f", "입법예고", none⟩

def c4Reject : Item :=
  ⟨"도로교통법 일부개정법률안 공고", "", "", "", "f", "입법예고", none⟩

def c4Other : Item := ⟨"아무 제목", "", "", "", "f", "노동부 소식", none⟩

/-- Claim C4: for items in the three legislative categories,
`is_labor_law_item` admits exactly the items matching the statute
whitelist or the backup keyword pattern; items of any other category pass
unchanged.  A legislative-notice item mentioning 근로기준법 is admitted;
one mentioning only an unrelated statute (도로교통법) and no backup
keyword is rejected. -/
theorem c4_labor_whitelist (it : Item) :
    ((it.cat = "입법예고" ∨ it.cat = "최신 시행법령" ∨ it.cat = "입법·행정예고") →
      (is_labor_law_item it = true ↔
        (searchAnyCI laborLaws (labText it) = true
          ∨ searchAnyCI laborBackup (labText it) = true)))
    ∧ (¬(it.cat = "입법예고" ∨ it.cat = "최신 시행법령" ∨ it.cat = "입법·행정예고") →
        is_labor_law_item it = true)
    ∧ is_labor_law_item c4Admit = true
    ∧ is_labor_law_item c4Reject = false := by
  refine ⟨?_, ?_, by decide, by decide⟩
  · intro hcat
    have hcond : (it.cat == "입법예고" || it.cat == "최신 시행법령"
        || it.cat == "입법·행정예고") = true := by
      rcases hcat with h | h | h <;> simp [h]
    simp [is_labor_law_item, hcond]
  · intro hcat
    have e1 : (it.cat == "입법예고") = false :=
      beq_eq_false_iff_ne.mpr (fun h => hcat (Or.inl h))
    have e2 : (it.cat == "최신 시행법령") = false :=
      beq_eq_false_iff_ne.mpr (fun h => hcat (Or.inr (Or.inl h)))
    have e3 : (it.cat == "입법·행정예고") = false :=
      beq_eq_false_iff_ne.mpr (fun h => hcat (Or.inr (Or.inr h)))
    simp [is_labor_law_item, e1, e2, e3]

/-- Witness for C4: the whitelisted legislative-notice item is admitted
through the first conjunct, and an ordinary-category item passes through
the second. -/
theorem c4_labor_whitelist_witness :
    is_labor_law_item c4Admit = true ∧ is_labor_law_item c4Other = true :=
  ⟨((c4_labor_whitelist c4Admit).1 (Or.inl rfl)).mpr (Or.inl (by decide)),
   (c4_labor_whitelist c4Other).2.1 (by decide)⟩

/-! ## Claim C5 -/

def c5A1 : Item :=
  ⟨"Alpha News", "la1", "", "", "f", "기타", some (civilInstant 2025 11 11 7 1 0 kstSec 0)⟩

def c5B1 : Item :=
  ⟨"beta news", "lb1", "", "", "f", "기타", some (civilInstant 2025 11 11 7 10 0 kstSec 0)⟩

def c5C1 : Item :=
  ⟨"gamma news", "lc1", "", "", "f", "기타", some (civilInstant 2025 11 11 7 2 0 kstSec 0)⟩

def c5A2 : Item :=
  ⟨"ALPHA news", "la2", "", "", "f", "기타", some (civilInstant 2025 11 11 7 30 0 kstSec 0)⟩

def c5C2 : Item :=
  ⟨"Gamma News", "lc2", "", "", "f", "기타", some (civilInstant 2025 11 11 7 40 0 kstSec 0)⟩

def c5A3 : Item :=
  ⟨"alpha news", "la3", "", "", "f", "기타", some (civilInstant 2025 11 11 7 20 0 kstSec 0)⟩

/-- Buckets of multiplicity 3 (`alpha news`), 1 (`beta news`) and
2 (`gamma news`). -/
def c5Items : List Item := [c5A1, c5B1, c5C1, c5A2, c5C2, c5A3]

/-- Claim C5 counterexample: `pick_top3_by_popularity` takes no caller
count K — the cutoff is hard-coded to three — so on buckets of
multiplicities 3, 1 and 2 it returns three representatives, including one
of the size-1 bucket, which the claim says is never returned when two are
requested. -/
theorem c5_counterexample :
    pick_top3_by_popularity c5Items = [c5A2, c5C2, c5B1]
    ∧ c5B1 ∈ pick_top3_by_popularity c5Items := by decide

/-- Claim C5 as amended: the ranker buckets by normalized title, ranks
buckets by (size, most recent instant) descending, picks each bucket's
most recent item as representative in rank order, and stops after the
hard-coded K = 3 (there is no caller-supplied K); for multiplicities
3, 1, 2 it returns the representatives of the size-3, size-2 and size-1
buckets in that order. -/
theorem c5_amended (items : List Item) :
    (pick_top3_by_popularity items).length ≤ 3
    ∧ pick_top3_by_popularity c5Items = [c5A2, c5C2, c5B1] := by
  refine ⟨?_, by decide⟩
  simp only [pick_top3_by_popularity]
  rw [List.length_map, List.length_take]
  omega

/-! ## Claim C6 -/

def c6Src : Source :=
  ⟨"https://www.moel.go.kr/rss/notice.do", .ok [⟨"", "", "", "2025-11-11 09:00"⟩]⟩

def c6It : Item :=
  ⟨"", "", "", "2025-11-11 09:00", "https://www.moel.go.kr/rss/notice.do",
   "노동부 소식", some 1762819200000000⟩

def c6Rec : Rec :=
  ⟨"|", "", "", "2025-11-11 09:00", "https://www.moel.go.kr/rss/notice.do", "노동부 소식"⟩

/-- Claim C6 counterexample: an in-window item whose title and link are
both empty is delivered and recorded.  `mk_id` hashes `"" + "|" + ""`,
which is a nonempty digest, so the orchestrator's `if not uid` check never
fires and nothing treats the empty identifier as inadmissible. -/
theorem c6_counterexample :
    (process_once (2025, 11, 12) [c6Src] []).sent = [c6It]
    ∧ (process_once (2025, 11, 12) [c6Src] []).ledger = [c6Rec]
    ∧ c6It.title = "" ∧ c6It.link = "" := by decide

/-- Claim C6 as amended: `mk_id` never returns an empty identifier — even
for an empty title and link it returns the digest of the bare separator —
so the orchestrator's emptiness guard rejects nothing, and an
empty-title-empty-link item that passes the window and category filters is
delivered and recorded under that digest. -/
theorem c6_amended :
    (∀ t l : String, mk_id t l ≠ "")
    ∧ (process_once (2025, 11, 12) [c6Src] []).sent.length = 1
    ∧ (process_once (2025, 11, 12) [c6Src] []).ledger.length = 1 := by
  refine ⟨?_, by decide, by decide⟩
  intro t l h
  have hl := congrArg String.length h
  simp only [mk_id, String.length_append] at hl
  rw [show ("|" : String).length = 1 from rfl,
      show ("" : String).length = 0 from rfl] at hl
  omega

/-! ## Claim C7 -/

/-- Claim C7 counterexample: the digest inputs of the two distinct pairs
`("a|b", "c")` and `("a", "b|c")` coincide — the separator `|` can occur in
a title, so the encoding is not unambiguous for every pair of distinct
inputs, and the two ids are equal regardless of hash collisions. -/
theorem c7_counterexample :
    mk_id "a|b" "c" = mk_id "a" "b|c"
    ∧ ¬((("a|b" : String), ("c" : String)) = (("a" : String), ("b|c" : String))) := by
  decide

theorem append_bar_eq : ∀ (t1 t2 l1 l2 : List Char), '|' ∉ t1 → '|' ∉ t2 →
    t1 ++ '|' :: l1 = t2 ++ '|' :: l2 → t1 = t2 ∧ l1 = l2 := by
  intro t1
  induction t1 with
  | nil =>
    intro t2 l1 l2 _ h2 he
    cases t2 with
    | nil => simpa using he
    | cons c t2' =>
      simp only [List.nil_append, List.cons_append, List.cons.injEq] at he
      exact absurd (he.1 ▸ List.mem_cons_self c t2') h2
  | cons c t1' ih =>
    intro t2 l1 l2 h1 h2 he
    cases t2 with
    | nil =>
      simp only [List.nil_append, List.cons_append, List.cons.injEq] at he
      exact absurd (he.1.symm ▸ List.mem_cons_self c t1') h1
    | cons c2 t2' =>
      simp only [List.cons_append, List.cons.injEq] at he
      have h1' : '|' ∉ t1' := fun hm => h1 (List.mem_cons_of_mem _ hm)
      have h2' : '|' ∉ t2' := fun hm => h2 (List.mem_cons_of_mem _ hm)
      obtain ⟨ht, hl⟩ := ih t2' l1 l2 h1' h2' he.2
      exact ⟨by rw [he.1, ht], hl⟩

/-- Claim C7 as amended: `mk_id` is deterministic, and the encoding is
unambiguous for titles that do not contain the separator `|` (true of the
feeds in practice): for such pairs, equal digest inputs force equal titles
and links. -/
theorem c7_amended (t1 l1 t2 l2 : String)
    (h1 : '|' ∉ t1.toList) (h2 : '|' ∉ t2.toList) :
    mk_id t1 l1 = mk_id t1 l1
    ∧ (mk_id t1 l1 = mk_id t2 l2 → t1 = t2 ∧ l1 = l2) := by
  refine ⟨rfl, ?_⟩
  intro he
  have e : ∀ (t l : String), (mk_id t l).data = t.data ++ '|' :: l.data := by
    intro t l
    cases t with
    | mk td =>
      cases l with
      | mk ld => simp [mk_id, String.append]
  have hd : t1.data ++ '|' :: l1.data = t2.data ++ '|' :: l2.data := by
    rw [← e, ← e, he]
  obtain ⟨ht, hl⟩ := append_bar_eq t1.data t2.data l1.data l2.data h1 h2 hd
  exact ⟨congrArg String.mk ht, congrArg String.mk hl⟩

/-- Witness for C7 as amended, at a bar-free concrete pair. -/
theorem c7_amended_witness :
    mk_id "ab" "c" = mk_id "ab" "c" ∧ ("ab" : String) = "ab" :=
  ⟨(c7_amended "ab" "c" "ab" "c" (by decide) (by decide)).1,
   ((c7_amended "ab" "c" "ab" "c" (by decide) (by decide)).2 rfl).1⟩


/-! ## Claim C9 -/

theorem mem_insertDescBy {α : Type} (lt : α → α → Bool) (x b : α) :
    ∀ (l : List α), b ∈ insertDescBy lt x l ↔ b = x ∨ b ∈ l := by
  intro l
  induction l with
  | nil => simp [insertDescBy]
  | cons y ys ih =>
    simp only [insertDescBy]
    by_cases h : lt x y = true
    · rw [if_pos h]
      simp only [List.mem_cons, ih]
      tauto
    · rw [if_neg h]
      simp [List.mem_cons]

theorem length_insertDescBy {α : Type} (lt : α → α → Bool) (x : α) :
    ∀ (l : List α), (insertDescBy lt x l).length = l.length + 1 := by
  intro l
  induction l with
  | nil => simp [insertDescBy]
  | cons y ys ih =>
    simp only [insertDescBy]
    by_cases h : lt x y = true
    · rw [if_pos h]
      simp [ih]
    · rw [if_neg h]
      simp

theorem sortDescBy_length {α : Type} (lt : α → α → Bool) :
    ∀ (l : List α), (sortDescBy lt l).length = l.length := by
  intro l
  induction l with
  | nil => rfl
  | cons x xs ih =>
    simp only [sortDescBy]
    rw [length_insertDescBy, ih, List.length_cons]

/-- The head of the stable descending sort by `sentKey` bounds every
element's key: the selected representative is most recent. -/
theorem sortDesc_headD_max :
    ∀ (l : List Item) (b : Item), b ∈ l →
      sentKey b ≤
        sentKey ((sortDescBy (fun a c => sentKey a < sentKey c) l).headD defaultItem) := by
  intro l
  induction l with
  | nil => intro b hb; simp at hb
  | cons x xs ih =>
    intro b hb
    simp only [sortDescBy]
    cases hs : sortDescBy (fun a c : Item => sentKey a < sentKey c) xs with
    | nil =>
      have h0 := sortDescBy_length (fun a c : Item => sentKey a < sentKey c) xs
      rw [hs] at h0
      have hxs : xs = [] := List.eq_nil_of_length_eq_zero h0.symm
      subst hxs
      have hbx : b = x := by simpa using hb
      subst hbx
      simp [insertDescBy]
    | cons y ys =>
      rcases List.mem_cons.mp hb with rfl | hbx
      · simp only [insertDescBy]
        by_cases h : sentKey b < sentKey y
        · rw [if_pos (by simpa using h)]
          simp only [List.headD_cons]
          exact le_of_lt h
        · rw [if_neg (by simpa using h)]
          simp
      · have hkb : sentKey b ≤ sentKey y := by
          have hle := ih b hbx
          rw [hs] at hle
          simpa using hle
        simp only [insertDescBy]
        by_cases h : sentKey x < sentKey y
        · rw [if_pos (by simpa using h)]
          simpa using hkb
        · rw [if_neg (by simpa using h)]
          simp only [List.headD_cons]
          exact le_trans hkb (not_lt.mp h)

/-- The bucket representative's recency key bounds the bucket. -/
theorem repOf_key_ge (grp : List Item) (b : Item) (hb : b ∈ grp) :
    sentKey b ≤ sentKey (repOf grp) := by
  simp only [repOf]
  exact sortDesc_headD_max grp b hb

def c9U : Item := ⟨"alpha", "", "", "", "f", "기타", none⟩

def c9D : Item := ⟨"alpha", "", "", "0001-01-01", "f", "기타", some dtMinKst⟩

/-- Claim C9 counterexample: `datetime.min` at KST is itself a parseable
instant — `parse_dt "0001-01-01"` returns exactly the sentinel substituted
for missing dates — so an undated item ties with such a dated item instead
of sorting strictly older, and the stable sort then keeps the undated item
first: in the bucket `[c9U, c9D]` the undated item is selected as the
most-recent representative even though the bucket contains a dated item. -/
theorem c9_counterexample :
    parse_dt "0001-01-01" = some dtMinKst
    ∧ c9U.dt = none ∧ c9D.dt = some dtMinKst
    ∧ pick_top3_by_popularity [c9U, c9D] = [c9U]
    ∧ repOf [c9U, c9D] = c9U := by decide

/-- Claim C9 as amended: an undated item's recency key equals the minimum
representable instant (0001-01-01 00:00 KST), so it never sorts strictly
more recent than a dated item; and in any bucket containing an item whose
parsed instant is strictly after that minimum, an undated item is never
selected as the representative. -/
theorem c9_amended (grp : List Item) (it : Item) (t : Int)
    (hmem : it ∈ grp) (hdt : it.dt = some t) (hgt : dtMinKst < t) :
    (∀ u : Item, u.dt = none → sentKey u = dtMinKst)
    ∧ (repOf grp).dt ≠ none := by
  refine ⟨fun u hu => by simp [sentKey, hu], ?_⟩
  intro hnone
  have h1 : sentKey it ≤ sentKey (repOf grp) := repOf_key_ge grp it hmem
  rw [show sentKey it = t from by simp [sentKey, hdt]] at h1
  rw [show sentKey (repOf grp) = dtMinKst from by simp [sentKey, hnone]] at h1
  exact absurd (lt_of_lt_of_le hgt h1) (lt_irrefl dtMinKst)

def c9W : Item := ⟨"alpha", "", "", "2025-11-11 07:00", "f", "기타", some 1762812000000000⟩

/-- Witness for C9 as amended: in a bucket holding the undated item and a
2025-dated item, the representative is dated. -/
theorem c9_amended_witness :
    sentKey c9U = dtMinKst ∧ (repOf [c9U, c9W]).dt ≠ none :=
  ⟨(c9_amended [c9U, c9W] c9W 1762812000000000 (by decide) rfl (by decide)).1 c9U rfl,
   (c9_amended [c9U, c9W] c9W 1762812000000000 (by decide) rfl (by decide)).2⟩


/-! ## Claim C10 -/

def c10Feed : String := "https://news.google.com/rss/search?q=esg"

def c10Src : Source :=
  ⟨c10Feed, .ok [⟨"일일 브리핑", "http://x", "오늘의 소식", "2025-11-11 07:00"⟩,
                 ⟨"일일 브리핑", "http://x", "지속가능경영 소식", "2025-11-11 08:00"⟩]⟩

def c10B : Item :=
  ⟨"일일 브리핑", "http://x", "오늘의 소식", "2025-11-11 07:00", c10Feed,
   "뉴스", some 1762812000000000⟩

/-- Claim C10 counterexample: the catch-all `뉴스` item `c10B` matches no
KCGS pattern and sits in neither candidate list, yet `process_once`
delivers and records it: its content id is derived from (title, link)
only, and a same-title-same-link `ESG뉴스` item of the batch put that very
id into the allowed top-3 set, so "its id can never be in that set" fails
and the item passes the top-3 admission step. -/
theorem c10_counterexample :
    c10B.cat = "뉴스" ∧ kcgsPatMatch c10B = false
    ∧ c10B ∉ kcgsItemsOf (windowedItems (2025, 11, 12) [c10Src])
    ∧ c10B ∉ esgItemsOf (windowedItems (2025, 11, 12) [c10Src])
    ∧ (process_once (2025, 11, 12) [c10Src] []).sent = [c10B]
    ∧ ledgerHas (process_once (2025, 11, 12) [c10Src] []).ledger
        (mk_id c10B.title c10B.link) = true := by decide

/-- Claim C10 as amended: a windowed item of category `뉴스` that does not
match the KCGS pattern is placed in neither the KCGS nor the ESG candidate
list; whenever its content id is not in the allowed top-3 id set (in
particular when no candidate item shares its title-link digest), the item
is never delivered; and every ledger row after the run is either a
pre-existing row or the row of a delivered item, so such an item is never
recorded either. -/
theorem c10_amended (today : Nat × Nat × Nat) (sources : List Source) (led0 : List Rec)
    (it : Item) (hcat : it.cat = "뉴스") (hk : kcgsPatMatch it = false) :
    (it ∉ kcgsItemsOf (windowedItems today sources)
      ∧ it ∉ esgItemsOf (windowedItems today sources))
    ∧ (mk_id it.title it.link ∉ allowedIdsOf (windowedItems today sources) →
        it ∉ (process_once today sources led0).sent)
    ∧ (∀ r ∈ (process_once today sources led0).ledger,
        r ∈ led0 ∨ r ∈ (process_once today sources led0).sent.map recOf) := by
  refine ⟨⟨?_, ?_⟩, ?_, ?_⟩
  · intro hmem
    simp only [kcgsItemsOf, List.mem_filter] at hmem
    have h2 := hmem.2
    rw [Bool.and_eq_true] at h2
    rw [hk] at h2
    exact Bool.false_ne_true h2.2
  · intro hmem
    simp only [esgItemsOf, List.mem_filter] at hmem
    have h2 := hmem.2
    rw [Bool.and_eq_true] at h2
    have hc : it.cat = "ESG뉴스" := beq_iff_eq.mp h2.1
    rw [hcat] at hc
    exact absurd hc (by decide)
  · intro hno hmem
    simp only [process_once] at hmem
    have hpass := deliver_sent_pass (allowedIdsOf (windowedItems today sources))
      (windowedItems today sources) led0 it hmem
    simp only [passChecks, Bool.and_eq_true] at hpass
    have hguard := hpass.1.2
    have hcats : (it.cat == "ESG뉴스" || it.cat == "뉴스") = true := by
      rw [hcat]
      decide
    rw [Bool.or_eq_true, hcats] at hguard
    rcases hguard with hfalse | hcont
    · simp at hfalse
    · exact hno (by simpa using hcont)
  · intro r hr
    simp only [process_once] at hr ⊢
    rw [deliver_ledger_eq] at hr
    rcases List.mem_append.mp hr with h | h
    · exact Or.inl h
    · exact Or.inr h

def c10WSrc : Source :=
  ⟨c10Feed, .ok [⟨"일일 브리핑", "http://x", "오늘의 소식", "2025-11-11 07:00"⟩]⟩

/-- Witness for C10 as amended: without the colliding ESG item in the
batch, the allowed set is empty and the `뉴스` item is in no candidate
list and is not delivered. -/
theorem c10_amended_witness :
    c10B ∉ kcgsItemsOf (windowedItems (2025, 11, 12) [c10WSrc])
    ∧ c10B ∉ (process_once (2025, 11, 12) [c10WSrc] []).sent :=
  ⟨((c10_amended (2025, 11, 12) [c10WSrc] [] c10B rfl (by decide)).1).1,
   (c10_amended (2025, 11, 12) [c10WSrc] [] c10B rfl (by decide)).2.1 (by decide)⟩


/-! ## Claim C8 -/

/-- Most-significant-first decimal digits of `v`, zero-padded to width `n`
(the canonical rendering of an ISO date-time field). -/
def toDigits : Nat → Nat → List Char
  | 0, _ => []
  | n + 1, v => digitChar (v / 10 ^ n) :: toDigits n (v % 10 ^ n)

theorem toDigits_succ_cons (n v : Nat) :
    toDigits (n + 1) v = digitChar (v / 10 ^ n) :: toDigits n (v % 10 ^ n) := rfl

/-- The zero-padded date-time core `YYYY-MM-DDTHH:MI:SS`. -/
def isoCore (y m d hh mi ss : Nat) : List Char :=
  toDigits 4 y ++ ('-' :: (toDigits 2 m ++ ('-' :: (toDigits 2 d ++
    ('T' :: (toDigits 2 hh ++ (':' :: (toDigits 2 mi ++ (':' :: toDigits 2 ss)))))))))

/-- A zone-less-UTC-marker ISO string `YYYY-MM-DDTHH:MI:SSZ`. -/
def renderIsoZ (y m d hh mi ss : Nat) : String :=
  String.mk (isoCore y m d hh mi ss ++ ['Z'])

/-- The fractional-seconds variant with `k` fraction digits. -/
def renderIsoFracZ (y m d hh mi ss k f : Nat) : String :=
  String.mk ((isoCore y m d hh mi ss ++ ('.' :: toDigits k f)) ++ ['Z'])

theorem digitChar_lt10 (a : Nat) (h : a < 10) :
    isDigitCh (digitChar a) = true ∧ digitVal (digitChar a) = a
      ∧ isSpaceCh (digitChar a) = false := by
  interval_cases a <;> exact ⟨by decide, by decide, by decide⟩

theorem div_pow_lt_ten (n v : Nat) (h : v < 10 ^ (n + 1)) : v / 10 ^ n < 10 := by
  have hp : 0 < 10 ^ n := Nat.pow_pos (by norm_num)
  rw [Nat.div_lt_iff_lt_mul hp]
  calc v < 10 ^ (n + 1) := h
    _ = 10 * 10 ^ n := by rw [pow_succ]; ring

theorem toDigits_all_digit : ∀ (n v : Nat), v < 10 ^ n →
    ∀ c ∈ toDigits n v, isDigitCh c = true := by
  intro n
  induction n with
  | zero => intro v h c hc; simp [toDigits] at hc
  | succ n ih =>
    intro v h c hc
    have hp : 0 < 10 ^ n := Nat.pow_pos (by norm_num)
    simp only [toDigits, List.mem_cons] at hc
    rcases hc with rfl | hc
    · exact (digitChar_lt10 _ (div_pow_lt_ten n v h)).1
    · exact ih (v % 10 ^ n) (Nat.mod_lt _ hp) c hc

theorem toDigits_length : ∀ (n v : Nat), (toDigits n v).length = n := by
  intro n
  induction n with
  | zero => intro v; rfl
  | succ n ih => intro v; simp [toDigits, ih]

theorem takeDigits_toDigits : ∀ (n v : Nat) (rest : List Char), v < 10 ^ n →
    takeDigits n (toDigits n v ++ rest) = some (v, rest) := by
  intro n
  induction n with
  | zero =>
    intro v rest h
    have h0 : v = 0 := Nat.lt_one_iff.mp (by simpa using h)
    subst h0
    simp [toDigits, takeDigits]
  | succ n ih =>
    intro v rest h
    have hp : 0 < 10 ^ n := Nat.pow_pos (by norm_num)
    have hlt : v / 10 ^ n < 10 := div_pow_lt_ten n v h
    have ihx := ih (v % 10 ^ n) rest (Nat.mod_lt _ hp)
    have hq : digitVal (digitChar (v / 10 ^ n)) * 10 ^ n + v % 10 ^ n = v := by
      rw [(digitChar_lt10 _ hlt).2.1]
      rw [Nat.mul_comm (v / 10 ^ n) (10 ^ n), Nat.div_add_mod]
    simp [toDigits, takeDigits, (digitChar_lt10 _ hlt).1, ihx, hq]

theorem toDigits_two (v : Nat) :
    toDigits 2 v = [digitChar (v / 10), digitChar (v % 10)] := by
  simp [toDigits, pow_one, pow_zero, Nat.div_one]

theorem take2or1_toDigits (lo2 hi2 lo1 hi1 v : Nat) (rest : List Char)
    (hlo : lo2 ≤ v) (hhi : v ≤ hi2) (h99 : hi2 ≤ 99) :
    take2or1 lo2 hi2 lo1 hi1 (toDigits 2 v ++ rest) = some (v, rest) := by
  have hv : v ≤ 99 := le_trans hhi h99
  have h1 : v / 10 < 10 := by omega
  have h2 : v % 10 < 10 := Nat.mod_lt _ (by norm_num)
  have hvv : 10 * digitVal (digitChar (v / 10)) + digitVal (digitChar (v % 10)) = v := by
    rw [(digitChar_lt10 _ h1).2.1, (digitChar_lt10 _ h2).2.1]
    omega
  rw [toDigits_two]
  simp only [List.cons_append, List.nil_append, take2or1]
  rw [hvv]
  rw [if_pos ⟨(digitChar_lt10 _ h1).1, (digitChar_lt10 _ h2).1, hlo, hhi⟩]

theorem expectCh_cons (c : Char) (r : List Char) : expectCh c (c :: r) = some r := by
  simp [expectCh]

theorem takeHMS_toDigits (hh mi ss : Nat) (rest : List Char)
    (hhh : hh ≤ 23) (hmi : mi ≤ 59) (hss : ss ≤ 61) :
    takeHMS (toDigits 2 hh ++ (':' :: (toDigits 2 mi ++ (':' :: (toDigits 2 ss ++ rest)))))
      = some ((hh, mi, ss), rest) := by
  simp only [takeHMS, takeHour, takeMin, takeSec]
  simp [take2or1_toDigits 0 23 0 9 hh _ (Nat.zero_le _) hhh (by norm_num),
        take2or1_toDigits 0 59 0 9 mi _ (Nat.zero_le _) hmi (by norm_num),
        take2or1_toDigits 0 61 0 9 ss _ (Nat.zero_le _) hss (by norm_num),
        expectCh_cons]

theorem pYMD_toDigits (sep : Char) (y m d : Nat) (rest : List Char)
    (hy : y ≤ 9999) (hm1 : 1 ≤ m) (hm : m ≤ 12) (hd1 : 1 ≤ d) (hd : d ≤ 31) :
    pYMD sep (toDigits 4 y ++ (sep :: (toDigits 2 m ++ (sep :: (toDigits 2 d ++ rest)))))
      = some ((y, m, d), rest) := by
  simp only [pYMD, takeMonth, takeDay]
  simp [takeDigits_toDigits 4 y _ (by omega),
        take2or1_toDigits 1 12 1 9 m _ hm1 hm (by norm_num),
        take2or1_toDigits 1 31 1 9 d _ hd1 hd (by norm_num),
        expectCh_cons]


theorem digit_not_space (c : Char) (hd : isDigitCh c = true) : isSpaceCh c = false := by
  simp only [isDigitCh, Bool.and_eq_true, decide_eq_true_eq] at hd
  have h32 : c ≠ ' ' := fun he => by rw [he] at hd; exact absurd hd (by decide)
  have h9 : c ≠ '\t' := fun he => by rw [he] at hd; exact absurd hd (by decide)
  have h10 : c ≠ '\n' := fun he => by rw [he] at hd; exact absurd hd (by decide)
  have h13 : c ≠ '\r' := fun he => by rw [he] at hd; exact absurd hd (by decide)
  have h11 : c.toNat ≠ 11 := by omega
  have h12 : c.toNat ≠ 12 := by omega
  simp [isSpaceCh, h32, h9, h10, h13, h11, h12]

theorem nonspace_append {l1 l2 : List Char}
    (h1 : ∀ c ∈ l1, isSpaceCh c = false) (h2 : ∀ c ∈ l2, isSpaceCh c = false) :
    ∀ c ∈ l1 ++ l2, isSpaceCh c = false := by
  intro c hc
  rcases List.mem_append.mp hc with h | h
  exacts [h1 c h, h2 c h]

theorem nonspace_cons {x : Char} {l : List Char}
    (hx : isSpaceCh x = false) (h : ∀ c ∈ l, isSpaceCh c = false) :
    ∀ c ∈ x :: l, isSpaceCh c = false := by
  intro c hc
  rcases List.mem_cons.mp hc with rfl | hmem
  exacts [hx, h c hmem]

theorem nonspace_nil : ∀ c ∈ ([] : List Char), isSpaceCh c = false := by
  intro c hc
  exact absurd hc (List.not_mem_nil c)

theorem dropWhile_nonspace {l : List Char} (h : ∀ c ∈ l, isSpaceCh c = false) :
    l.dropWhile isSpaceCh = l := by
  cases l with
  | nil => rfl
  | cons x xs =>
    rw [List.dropWhile_cons, if_neg (by simp [h x (List.mem_cons_self x xs)])]

theorem pyStripL_nonspace {l : List Char} (h : ∀ c ∈ l, isSpaceCh c = false) :
    pyStripL l = l := by
  unfold pyStripL
  rw [dropWhile_nonspace h]
  rw [dropWhile_nonspace (fun c hc => h c (List.mem_reverse.mp hc))]
  exact List.reverse_reverse l

theorem daysInMonth_le (y m : Nat) : daysInMonth y m ≤ 31 := by
  unfold daysInMonth
  split_ifs <;> omega

theorem isoCore_nonspace (y m d hh mi ss : Nat)
    (hy : y ≤ 9999) (hm : m ≤ 12) (hd : d ≤ 31) (hhh : hh ≤ 23)
    (hmi : mi ≤ 59) (hss : ss ≤ 61) :
    ∀ c ∈ isoCore y m d hh mi ss, isSpaceCh c = false := by
  have D : ∀ (n v : Nat), v < 10 ^ n → ∀ c ∈ toDigits n v, isSpaceCh c = false :=
    fun n v hv c hc => digit_not_space c (toDigits_all_digit n v hv c hc)
  unfold isoCore
  exact nonspace_append (D 4 y (by omega))
    (nonspace_cons (by decide)
      (nonspace_append (D 2 m (by omega))
        (nonspace_cons (by decide)
          (nonspace_append (D 2 d (by omega))
            (nonspace_cons (by decide)
              (nonspace_append (D 2 hh (by omega))
                (nonspace_cons (by decide)
                  (nonspace_append (D 2 mi (by omega))
                    (nonspace_cons (by decide) (D 2 ss (by omega)))))))))))

theorem mem_T_isoCore (y m d hh mi ss : Nat) : 'T' ∈ isoCore y m d hh mi ss := by
  unfold isoCore
  simp

/-- The `Z`-literal pattern accepts the canonical rendering. -/
theorem pIsoLiteralZ_render (y m d hh mi ss : Nat) (tail : List Char)
    (hy1 : 1 ≤ y) (hy : y ≤ 9999) (hm1 : 1 ≤ m) (hm : m ≤ 12)
    (hd1 : 1 ≤ d) (hd : d ≤ daysInMonth y m)
    (hhh : hh ≤ 23) (hmi : mi ≤ 59) (hss : ss ≤ 59)
    (htail : tail = []) :
    pIsoLiteralZ (isoCore y m d hh mi ss ++ ('Z' :: tail))
      = some ⟨y, m, d, hh, mi, ss, 0, some 0⟩ := by
  have hd31 : d ≤ 31 := le_trans hd (daysInMonth_le y m)
  have hshape : isoCore y m d hh mi ss ++ ('Z' :: tail)
      = toDigits 4 y ++ ('-' :: (toDigits 2 m ++ ('-' :: (toDigits 2 d ++
          ('T' :: (toDigits 2 hh ++ (':' :: (toDigits 2 mi ++
            (':' :: (toDigits 2 ss ++ ('Z' :: tail))))))))))) := by
    simp [isoCore, List.append_assoc, List.cons_append]
  rw [hshape]
  simp only [pIsoLiteralZ]
  rw [pYMD_toDigits '-' y m d _ hy hm1 hm hd1 hd31]
  simp only [expectCh_cons]
  rw [takeHMS_toDigits hh mi ss _ hhh hmi (by omega)]
  simp only [expectCh_cons, htail]
  simp only [List.isEmpty_nil, if_true]
  rw [checkPDT, if_pos ?hvalid]
  case hvalid =>
    constructor
    · simp only [validYMD, Bool.and_eq_true, decide_eq_true_eq]
      omega
    · simp only [validHMS, Bool.and_eq_true, decide_eq_true_eq]
      omega

/-- `parse_dt` on the canonical zone-less-UTC rendering: the `Z`-suffix
branch fires and the instant is read at offset +00:00. -/
theorem parse_renderIsoZ (y m d hh mi ss : Nat)
    (hy1 : 1 ≤ y) (hy : y ≤ 9999) (hm1 : 1 ≤ m) (hm : m ≤ 12)
    (hd1 : 1 ≤ d) (hd : d ≤ daysInMonth y m)
    (hhh : hh ≤ 23) (hmi : mi ≤ 59) (hss : ss ≤ 59) :
    parse_dt (renderIsoZ y m d hh mi ss) = some (civilInstant y m d hh mi ss 0 0) := by
  have hd31 : d ≤ 31 := le_trans hd (daysInMonth_le y m)
  have hns : ∀ c ∈ isoCore y m d hh mi ss ++ ['Z'], isSpaceCh c = false :=
    nonspace_append (isoCore_nonspace y m d hh mi ss hy hm hd31 hhh hmi (by omega))
      (nonspace_cons (by decide) nonspace_nil)
  have ht : pyStripL (String.toList (renderIsoZ y m d hh mi ss))
      = isoCore y m d hh mi ss ++ ['Z'] := pyStripL_nonspace hns
  simp only [parse_dt, ht]
  have hyne : (isoCore y m d hh mi ss ++ ['Z']).isEmpty = false := by
    cases isoCore y m d hh mi ss with
    | nil => rfl
    | cons a as => rfl
  rw [hyne]
  simp only [Bool.false_eq_true, if_false]
  rw [if_pos ?hcond]
  case hcond =>
    constructor
    · exact List.getLast?_concat _
    · have hmemT : 'T' ∈ isoCore y m d hh mi ss ++ ['Z'] :=
        List.mem_append.mpr (Or.inl (mem_T_isoCore y m d hh mi ss))
      exact List.elem_eq_true_of_mem hmemT
  rw [show (['Z'] : List Char) = 'Z' :: [] from rfl,
      pIsoLiteralZ_render y m d hh mi ss [] hy1 hy hm1 hm hd1 hd hhh hmi hss rfl]
  simp [instantOfPDT]


theorem pref_lower_digit (nm l : List Char) (c : Char) (h : isDigitCh c = true)
    (hx : ∃ x xs, nm = x :: xs ∧ 97 ≤ x.toNat) :
    isPrefList nm (lowerL (c :: l)) = false := by
  obtain ⟨x, xs, rfl, hxx⟩ := hx
  simp only [lowerL, List.map_cons, isPrefList]
  have hdig : 48 ≤ c.toNat ∧ c.toNat ≤ 57 := by
    simpa [isDigitCh] using h
  have hlc : asciiLower c = c := by
    simp only [asciiLower]
    rw [if_neg]
    intro hcb
    omega
  rw [hlc]
  have hne : (x == c) = false := by
    rw [beq_eq_false_iff_ne]
    intro he
    have := congrArg Char.toNat he
    omega
  simp [hne]

theorem matchNameCI_none (names : List String) (l : List Char)
    (h : ∀ nm ∈ names, isPrefList (lowerL nm.toList) (lowerL l) = false) :
    matchNameCI names l = none := by
  induction names with
  | nil => rfl
  | cons nm rest ih =>
    simp only [matchNameCI]
    rw [h nm (List.mem_cons_self nm rest)]
    simp only [Bool.false_eq_true, if_false]
    exact ih (fun nm2 hm => h nm2 (List.mem_cons_of_mem _ hm))

theorem matchNameCI_days_digit (c : Char) (l : List Char) (h : isDigitCh c = true) :
    matchNameCI dayAbbrevs (c :: l) = none := by
  apply matchNameCI_none
  intro nm hnm
  fin_cases hnm
  · exact pref_lower_digit _ _ _ h ⟨'m', ['o', 'n'], by decide, by decide⟩
  · exact pref_lower_digit _ _ _ h ⟨'t', ['u', 'e'], by decide, by decide⟩
  · exact pref_lower_digit _ _ _ h ⟨'w', ['e', 'd'], by decide, by decide⟩
  · exact pref_lower_digit _ _ _ h ⟨'t', ['h', 'u'], by decide, by decide⟩
  · exact pref_lower_digit _ _ _ h ⟨'f', ['r', 'i'], by decide, by decide⟩
  · exact pref_lower_digit _ _ _ h ⟨'s', ['a', 't'], by decide, by decide⟩
  · exact pref_lower_digit _ _ _ h ⟨'s', ['u', 'n'], by decide, by decide⟩

theorem pRfcZ_digit (c : Char) (l : List Char) (h : isDigitCh c = true) :
    pRfcZ (c :: l) = none := by
  simp [pRfcZ, pRfcDate, matchNameCI_days_digit c l h]

theorem pRfcNamed_digit (c : Char) (l : List Char) (h : isDigitCh c = true) :
    pRfcNamed (c :: l) = none := by
  simp [pRfcNamed, pRfcDate, matchNameCI_days_digit c l h]

theorem takeZone_dot (r : List Char) : takeZone ('.' :: r) = none := by
  simp [takeZone]

theorem takeWhile_digits_append (ds : List Char) (z : Char) (rest : List Char)
    (hds : ∀ c ∈ ds, isDigitCh c = true) (hz : isDigitCh z = false) :
    (ds ++ z :: rest).takeWhile isDigitCh = ds
    ∧ (ds ++ z :: rest).dropWhile isDigitCh = z :: rest := by
  induction ds with
  | nil => simp [List.takeWhile_cons, List.dropWhile_cons, hz]
  | cons a as ih =>
    have ha := hds a (List.mem_cons_self a as)
    have ih2 := ih (fun c hc => hds c (List.mem_cons_of_mem _ hc))
    simp [List.takeWhile_cons, List.dropWhile_cons, ha, ih2.1, ih2.2]

theorem foldl_toDigits : ∀ (n v a : Nat), v < 10 ^ n →
    (toDigits n v).foldl (fun acc c => 10 * acc + digitVal c) a = a * 10 ^ n + v := by
  intro n
  induction n with
  | zero =>
    intro v a h
    have h0 : v = 0 := by simpa using h
    subst h0
    simp [toDigits]
  | succ n ih =>
    intro v a h
    have hp : 0 < 10 ^ n := Nat.pow_pos (by norm_num)
    have hlt := div_pow_lt_ten n v h
    simp only [toDigits, List.foldl_cons]
    rw [(digitChar_lt10 _ hlt).2.1]
    rw [ih (v % 10 ^ n) (10 * a + v / 10 ^ n) (Nat.mod_lt _ hp)]
    have hdm := Nat.div_add_mod v (10 ^ n)
    calc (10 * a + v / 10 ^ n) * 10 ^ n + v % 10 ^ n
        = a * (10 * 10 ^ n) + (10 ^ n * (v / 10 ^ n) + v % 10 ^ n) := by ring
      _ = a * 10 ^ (n + 1) + v := by rw [hdm, pow_succ]; ring

theorem takeFrac_toDigits (k f : Nat) (rest : List Char) (hk1 : 1 ≤ k) (hk6 : k ≤ 6)
    (hf : f < 10 ^ k) :
    takeFrac (toDigits k f ++ ('Z' :: rest)) = some (f * 10 ^ (6 - k), 'Z' :: rest) := by
  have hall := toDigits_all_digit k f hf
  have hz : isDigitCh 'Z' = false := by decide
  obtain ⟨htake, hdrop⟩ := takeWhile_digits_append (toDigits k f) 'Z' rest hall hz
  simp only [takeFrac, htake, hdrop]
  have hne : (toDigits k f).isEmpty = false := by
    cases k with
    | zero => omega
    | succ k2 => rfl
  rw [hne, toDigits_length]
  rw [if_neg (by simp; omega)]
  rw [foldl_toDigits k f 0 hf]
  simp


theorem pRfcZ_toDigits4 (y : Nat) (r : List Char) (hy : y ≤ 9999) :
    pRfcZ (toDigits 4 y ++ r) = none := by
  rw [toDigits_succ_cons, List.cons_append]
  exact pRfcZ_digit _ _ (digitChar_lt10 _ (div_pow_lt_ten 3 y (by omega))).1

theorem pRfcNamed_toDigits4 (y : Nat) (r : List Char) (hy : y ≤ 9999) :
    pRfcNamed (toDigits 4 y ++ r) = none := by
  rw [toDigits_succ_cons, List.cons_append]
  exact pRfcNamed_digit _ _ (digitChar_lt10 _ (div_pow_lt_ten 3 y (by omega))).1

theorem pIsoLiteralZ_frac_none (y m d hh mi ss : Nat) (rest : List Char)
    (hy : y ≤ 9999) (hm1 : 1 ≤ m) (hm : m ≤ 12) (hd1 : 1 ≤ d) (hd31 : d ≤ 31)
    (hhh : hh ≤ 23) (hmi : mi ≤ 59) (hss : ss ≤ 59) :
    pIsoLiteralZ (toDigits 4 y ++ ('-' :: (toDigits 2 m ++ ('-' :: (toDigits 2 d ++
      ('T' :: (toDigits 2 hh ++ (':' :: (toDigits 2 mi ++
        (':' :: (toDigits 2 ss ++ ('.' :: rest)))))))))))) = none := by
  simp only [pIsoLiteralZ]
  rw [pYMD_toDigits '-' y m d _ hy hm1 hm hd1 hd31]
  simp only [expectCh_cons]
  rw [takeHMS_toDigits hh mi ss _ hhh hmi (by omega)]
  simp [expectCh]

theorem pIsoTz_frac_none (y m d hh mi ss : Nat) (rest : List Char)
    (hy : y ≤ 9999) (hm1 : 1 ≤ m) (hm : m ≤ 12) (hd1 : 1 ≤ d) (hd31 : d ≤ 31)
    (hhh : hh ≤ 23) (hmi : mi ≤ 59) (hss : ss ≤ 59) :
    pIsoTz (toDigits 4 y ++ ('-' :: (toDigits 2 m ++ ('-' :: (toDigits 2 d ++
      ('T' :: (toDigits 2 hh ++ (':' :: (toDigits 2 mi ++
        (':' :: (toDigits 2 ss ++ ('.' :: rest)))))))))))) = none := by
  simp only [pIsoTz]
  rw [pYMD_toDigits '-' y m d _ hy hm1 hm hd1 hd31]
  simp only [expectCh_cons]
  rw [takeHMS_toDigits hh mi ss _ hhh hmi (by omega)]
  simp [takeZone_dot]

theorem pIsoFracTz_render (y m d hh mi ss k f : Nat)
    (hy1 : 1 ≤ y) (hy : y ≤ 9999) (hm1 : 1 ≤ m) (hm : m ≤ 12)
    (hd1 : 1 ≤ d) (hd : d ≤ daysInMonth y m)
    (hhh : hh ≤ 23) (hmi : mi ≤ 59) (hss : ss ≤ 59)
    (hk1 : 1 ≤ k) (hk6 : k ≤ 6) (hf : f < 10 ^ k) :
    pIsoFracTz (toDigits 4 y ++ ('-' :: (toDigits 2 m ++ ('-' :: (toDigits 2 d ++
      ('T' :: (toDigits 2 hh ++ (':' :: (toDigits 2 mi ++
        (':' :: (toDigits 2 ss ++ ('.' :: (toDigits k f ++ ('Z' :: []))))))))))))))
      = some ⟨y, m, d, hh, mi, ss, f * 10 ^ (6 - k), some 0⟩ := by
  have hd31 : d ≤ 31 := le_trans hd (daysInMonth_le y m)
  have hvy : validYMD y m d = true := by
    simp only [validYMD, Bool.and_eq_true, decide_eq_true_eq]
    omega
  have hvt : validHMS hh mi ss = true := by
    simp only [validHMS, Bool.and_eq_true, decide_eq_true_eq]
    omega
  simp only [pIsoFracTz]
  rw [pYMD_toDigits '-' y m d _ hy hm1 hm hd1 hd31]
  simp only [expectCh_cons]
  rw [takeHMS_toDigits hh mi ss _ hhh hmi (by omega)]
  simp [expectCh_cons, takeFrac_toDigits k f [] hk1 hk6 hf, takeZone, checkPDT, hvy, hvt]

/-- `parse_dt` on the canonical fractional-seconds rendering: the explicit
`Z`-branch attempt fails on the fraction, the RFC patterns fail on the
digit head, the fractionless ISO pattern fails at the dot, and the
fractional ISO pattern parses with `%z` matching `Z`, i.e. offset +00:00. -/
theorem parse_renderIsoFracZ (y m d hh mi ss k f : Nat)
    (hy1 : 1 ≤ y) (hy : y ≤ 9999) (hm1 : 1 ≤ m) (hm : m ≤ 12)
    (hd1 : 1 ≤ d) (hd : d ≤ daysInMonth y m)
    (hhh : hh ≤ 23) (hmi : mi ≤ 59) (hss : ss ≤ 59)
    (hk1 : 1 ≤ k) (hk6 : k ≤ 6) (hf : f < 10 ^ k) :
    parse_dt (renderIsoFracZ y m d hh mi ss k f)
      = some (civilInstant y m d hh mi ss 0 (f * 10 ^ (6 - k))) := by
  have hd31 : d ≤ 31 := le_trans hd (daysInMonth_le y m)
  have hdigns : ∀ c ∈ toDigits k f, isSpaceCh c = false :=
    fun c hc => digit_not_space c (toDigits_all_digit k f hf c hc)
  have hns : ∀ c ∈ (isoCore y m d hh mi ss ++ ('.' :: toDigits k f)) ++ ['Z'],
      isSpaceCh c = false :=
    nonspace_append
      (nonspace_append (isoCore_nonspace y m d hh mi ss hy hm hd31 hhh hmi (by omega))
        (nonspace_cons (by decide) hdigns))
      (nonspace_cons (by decide) nonspace_nil)
  have ht : pyStripL (String.toList (renderIsoFracZ y m d hh mi ss k f))
      = (isoCore y m d hh mi ss ++ ('.' :: toDigits k f)) ++ ['Z'] :=
    pyStripL_nonspace hns
  simp only [parse_dt, ht]
  have hyne : ((isoCore y m d hh mi ss ++ ('.' :: toDigits k f)) ++ ['Z']).isEmpty
      = false := by
    cases isoCore y m d hh mi ss ++ ('.' :: toDigits k f) with
    | nil => rfl
    | cons a as => rfl
  rw [hyne]
  simp only [Bool.false_eq_true, if_false]
  rw [if_pos ?hcond]
  case hcond =>
    constructor
    · exact List.getLast?_concat _
    · have hmemT : 'T' ∈ (isoCore y m d hh mi ss ++ ('.' :: toDigits k f)) ++ ['Z'] :=
        List.mem_append.mpr (Or.inl (List.mem_append.mpr (Or.inl
          (mem_T_isoCore y m d hh mi ss))))
      exact List.elem_eq_true_of_mem hmemT
  have hshape : (isoCore y m d hh mi ss ++ ('.' :: toDigits k f)) ++ ['Z']
      = toDigits 4 y ++ ('-' :: (toDigits 2 m ++ ('-' :: (toDigits 2 d ++
          ('T' :: (toDigits 2 hh ++ (':' :: (toDigits 2 mi ++
            (':' :: (toDigits 2 ss ++ ('.' :: (toDigits k f ++ ('Z' :: []))))))))))))) := by
    simp [isoCore, List.append_assoc, List.cons_append]
  rw [hshape]
  rw [pIsoLiteralZ_frac_none y m d hh mi ss _ hy hm1 hm hd1 hd31 hhh hmi hss]
  have h1 := pRfcZ_toDigits4 y ('-' :: (toDigits 2 m ++ ('-' :: (toDigits 2 d ++
      ('T' :: (toDigits 2 hh ++ (':' :: (toDigits 2 mi ++
        (':' :: (toDigits 2 ss ++ ('.' :: (toDigits k f ++ ('Z' :: []))))))))))))) hy
  have h2 := pRfcNamed_toDigits4 y ('-' :: (toDigits 2 m ++ ('-' :: (toDigits 2 d ++
      ('T' :: (toDigits 2 hh ++ (':' :: (toDigits 2 mi ++
        (':' :: (toDigits 2 ss ++ ('.' :: (toDigits k f ++ ('Z' :: []))))))))))))) hy
  have h3 := pIsoTz_frac_none y m d hh mi ss (toDigits k f ++ ('Z' :: []))
      hy hm1 hm hd1 hd31 hhh hmi hss
  have h4 := pIsoFracTz_render y m d hh mi ss k f hy1 hy hm1 hm hd1 hd hhh hmi hss
      hk1 hk6 hf
  simp only [datePatterns, firstPattern, h1, h2, h3, h4]
  simp [instantOfPDT]

/-- Claim C8: a date-time immediately followed by the zone-less UTC marker
`Z` — with or without fractional seconds — is parsed as UTC explicitly:
the returned absolute instant is the stated wall-clock fields at offset
+00:00, and in particular differs from the same fields read at the assumed
local offset KST (+09:00). -/
theorem c8_utc_z_parsing (y m d hh mi ss k f : Nat)
    (hy1 : 1 ≤ y) (hy : y ≤ 9999) (hm1 : 1 ≤ m) (hm : m ≤ 12)
    (hd1 : 1 ≤ d) (hd : d ≤ daysInMonth y m)
    (hhh : hh ≤ 23) (hmi : mi ≤ 59) (hss : ss ≤ 59)
    (hk1 : 1 ≤ k) (hk6 : k ≤ 6) (hf : f < 10 ^ k) :
    parse_dt (renderIsoZ y m d hh mi ss) = some (civilInstant y m d hh mi ss 0 0)
    ∧ parse_dt (renderIsoFracZ y m d hh mi ss k f)
        = some (civilInstant y m d hh mi ss 0 (f * 10 ^ (6 - k)))
    ∧ civilInstant y m d hh mi ss 0 0 ≠ civilInstant y m d hh mi ss kstSec 0 := by
  refine ⟨parse_renderIsoZ y m d hh mi ss hy1 hy hm1 hm hd1 hd hhh hmi hss,
          parse_renderIsoFracZ y m d hh mi ss k f hy1 hy hm1 hm hd1 hd hhh hmi hss
            hk1 hk6 hf, ?_⟩
  intro he
  simp only [civilInstant, kstSec] at he
  omega

/-- Witness for C8 at `2025-11-11T07:00:00Z` and `2025-11-11T07:00:00.123Z`:
both parse to the UTC instants, not the KST ones. -/
theorem c8_utc_z_parsing_witness :
    parse_dt (renderIsoZ 2025 11 11 7 0 0) = some (civilInstant 2025 11 11 7 0 0 0 0)
    ∧ parse_dt (renderIsoFracZ 2025 11 11 7 0 0 3 123)
        = some (civilInstant 2025 11 11 7 0 0 0 123000) := by
  have h := c8_utc_z_parsing 2025 11 11 7 0 0 3 123 (by decide) (by decide) (by decide)
    (by decide) (by decide) (by decide) (by decide) (by decide) (by decide)
    (by decide) (by decide) (by decide)
  exact ⟨h.1, by simpa using h.2.1⟩

end LaborWatch
